import Mathlib

/-!
Verification of the DendroPy NEXUS/NEWICK module (`dendropy/nexus.py`).

This file gives a shallow embedding of the tokenizer, the NEWICK
recursive-descent tree parser, the NEXUS block/statement parsers and the
NEWICK writer of `nexus.py`, and proves properties of the embedded
functions.  Each definition is translated directly from the Python source;
Python exceptions are modelled with an `Except` channel, Python `None` with
`Option`, and the mutable tokenizer object with an explicit state record.
`while` loops of the source become fuel-indexed recursive functions; the
public entry points instantiate the fuel with a value computed from the
input length (larger than the number of iterations any run of the source
can perform on that input).  Python `float` values are modelled as exact
rationals parsed from the literal; this module only ever turns tokens into
floats and prints them back, so no claim below depends on binary rounding.
-/

set_option maxRecDepth 100000

namespace DendroNexus

/-- Outcome check for `Except` used in several statements. -/
def isOkE {ε α : Type} : Except ε α → Bool
  | .ok _ => true
  | .error _ => false

/-! ### map_to_iupac_ambiguity_code (nexus.py lines 151-181)

The Python function receives a sequence of characters (a string or list);
we model it on `List Char`.  `states.count(c)` used in a boolean position
is Python-truthy iff the count is positive. -/

/-- Python truthiness of `states.count(c)` inside `map_to_iupac_ambiguity_code`:
the count of `c` in the upper-cased state list is positive. -/
def cntU (states : List Char) (c : Char) : Bool :=
  0 < (states.map Char.toUpper).count c

/-- The message of the exception raised by `map_to_iupac_ambiguity_code`
(`'Unrecognized characters in "%s"' % states`); the `%s` rendering of the
upper-cased list is modelled by its character content. -/
def unrecognizedMsg (sts : List Char) : String :=
  "Unrecognized characters in " ++ String.mk sts

/-- `map_to_iupac_ambiguity_code(states)` from nexus.py.  A single-character
group is returned verbatim (before upper-casing); otherwise the chain of
`if states.count(..) and ..: return ..` statements is followed in source
order, and the final `raise Exception` becomes an `Except.error`.  Note the
source tests `states.count('C')` (not `'A'`) in the branch returning `'W'`,
and repeats that identical condition in the (therefore unreachable) branch
returning `'Y'`. -/
def map_to_iupac_ambiguity_code (states : List Char) : Except String Char :=
  if states.length = 1 then .ok states.head!
  else
    let tu := cntU states 'T' || cntU states 'U'
    if cntU states 'A' && cntU states 'C' && cntU states 'G' && tu then .ok 'N'
    else if cntU states 'A' && cntU states 'C' && cntU states 'G' then .ok 'V'
    else if cntU states 'A' && cntU states 'C' && tu then .ok 'H'
    else if cntU states 'A' && cntU states 'G' && tu then .ok 'D'
    else if cntU states 'C' && cntU states 'G' && tu then .ok 'B'
    else if cntU states 'A' && cntU states 'C' then .ok 'M'
    else if cntU states 'A' && cntU states 'G' then .ok 'R'
    else if cntU states 'C' && tu then .ok 'W'
    else if cntU states 'C' && cntU states 'G' then .ok 'S'
    else if cntU states 'C' && tu then .ok 'Y'
    else if cntU states 'G' && tu then .ok 'K'
    else .error (unrecognizedMsg (states.map Char.toUpper))

/-! Spec-side vocabulary for claims C5/C6: the table of IUPAC 2-of-4 and
3-of-4 combinations of A/C/G/T(-or-U), written independently of the code
(sets of normalized characters, `U` identified with `T`). -/

/-- Normalization used to state "combinations of A/C/G/T-or-U": upper-case
and identify `U` with `T`. -/
def tuNorm (c : Char) : Char :=
  if c.toUpper = 'U' then 'T' else c.toUpper

/-- The set of normalized characters occurring in an ambiguity group. -/
def comboSet (g : List Char) : Finset Char :=
  (g.map tuNorm).toFinset

/-- The IUPAC table of 2-of-4 and 3-of-4 combinations of A/C/G/T with their
single-letter codes, as named by claim C5. -/
def iupacCombos : List (Finset Char × Char) :=
  [({'A', 'C'}, 'M'), ({'A', 'G'}, 'R'), ({'A', 'T'}, 'W'),
   ({'C', 'G'}, 'S'), ({'C', 'T'}, 'Y'), ({'G', 'T'}, 'K'),
   ({'A', 'C', 'G'}, 'V'), ({'A', 'C', 'T'}, 'H'),
   ({'A', 'G', 'T'}, 'D'), ({'C', 'G', 'T'}, 'B')]

/-- What the code's lookup actually recognizes, as a function of which of
A, C, G and T-or-U occur (after upper-casing) in a multi-character group.
Proved equal to `map_to_iupac_ambiguity_code` in `map_to_iupac_present`. -/
def codeOfPresent : Bool → Bool → Bool → Bool → Option Char
  | true, true, true, true => some 'N'
  | true, true, true, false => some 'V'
  | true, true, false, true => some 'H'
  | true, false, true, true => some 'D'
  | false, true, true, true => some 'B'
  | true, true, false, false => some 'M'
  | true, false, true, false => some 'R'
  | false, true, false, true => some 'W'
  | false, true, true, false => some 'S'
  | false, false, true, true => some 'K'
  | _, _, _, _ => none

/-- Characterization of `map_to_iupac_ambiguity_code` on multi-character
groups: the result depends only on which of A, C, G, T-or-U occur in the
upper-cased group, via the table `codeOfPresent`; all other groups raise,
with a message carrying the upper-cased group content. -/
theorem map_to_iupac_present (g : List Char) (h2 : 2 ≤ g.length) :
    map_to_iupac_ambiguity_code g =
      match codeOfPresent (cntU g 'A') (cntU g 'C') (cntU g 'G')
          (cntU g 'T' || cntU g 'U') with
      | some c => .ok c
      | none => .error (unrecognizedMsg (g.map Char.toUpper)) := by
  have hne : ¬ g.length = 1 := by omega
  unfold map_to_iupac_ambiguity_code
  rw [if_neg hne]
  cases hA : cntU g 'A' <;> cases hC : cntU g 'C' <;> cases hG : cntU g 'G' <;>
    cases hT : cntU g 'T' <;> cases hU : cntU g 'U' <;> simp [codeOfPresent]

/-! ### NexusStreamTokenizer (nexus.py lines 311-515)

The tokenizer object is modelled as an explicit state record.  Python's
`current_file_char` is `None` before the first read, the empty string after
end of input, and a one-character string otherwise; this is the `FChar`
type.  The `current_file_char` property triggers a read on first access
(`forceCur`). -/

/-- The apostrophe character (written numerically throughout). -/
def squote : Char := Char.ofNat 39

/-- The double-quote character. -/
def dquote : Char := Char.ofNat 34

/-- The backslash character. -/
def bslash : Char := Char.ofNat 92

/-- The backtick character. -/
def btick : Char := Char.ofNat 96

/-- The opening brace character. -/
def obrace : Char := Char.ofNat 123

/-- The closing brace character. -/
def cbrace : Char := Char.ofNat 125

/-- `NexusStreamTokenizer.punctuation`, character by character.  The Python
literal `'\(\)\[\]\{\}\\\/\,\;\:\=\*\'\"\`\+\-\<\>'` keeps the backslash
before characters for which `\x` is not a recognized escape, so the string
interleaves backslashes with the punctuation characters; `\\`, `\'` and
`\"` each denote a single character. -/
def punctuationChars : List Char :=
  [bslash, '(', bslash, ')', bslash, '[', bslash, ']', bslash, obrace,
   bslash, cbrace, bslash, bslash, '/', bslash, ',', bslash, ';', bslash,
   ':', bslash, '=', bslash, '*', squote, dquote, bslash, btick, bslash,
   '+', bslash, '-', bslash, '<', bslash, '>']

/-- `NexusStreamTokenizer.whitespace`: space, NUL, tab, newline, CR. -/
def whitespaceChars : List Char :=
  [' ', Char.ofNat 0, '\t', '\n', '\r']

/-- Membership of a character in the punctuation string
(`char in NexusStreamTokenizer.punctuation`). -/
def isPunctChar (c : Char) : Bool := punctuationChars.contains c

/-- Membership of a character in the whitespace string. -/
def isWsChar (c : Char) : Bool := whitespaceChars.contains c

/-- `token in NexusStreamTokenizer.punctuation` for a whole token: Python
`in` on strings is a substring test against the punctuation string. -/
def strInPunct (tok : String) : Bool :=
  decide (tok.toList <:+: punctuationChars)

/-- The state of `current_file_char`: unread (`None`), end of input (`''`),
or a character. -/
inductive FChar where
  | unread
  | eochar
  | ch (c : Char)
deriving DecidableEq, Repr

/-- `is_whitespace(current_file_char)`: Python `'' in whitespace` is true,
so the end-of-input pseudo-character counts as whitespace. -/
def isWsF : FChar → Bool
  | .ch c => isWsChar c
  | .eochar => true
  | .unread => false

/-- `is_punctuation(current_file_char)`: guarded by `if char:` in the
source, so the end-of-input pseudo-character is not punctuation. -/
def isPunctF : FChar → Bool
  | .ch c => isPunctChar c
  | _ => false

/-- `is_whitespace_or_punctuation` on the current character. -/
def isWsPunctF (fc : FChar) : Bool := isWsF fc || isPunctF fc

/-- `current_file_char in ignore_punctuation` (only reached under
`not self.eof`, so only the character case matters). -/
def inIgnoreF (fc : FChar) (ignore : List Char) : Bool :=
  match fc with
  | .ch c => ignore.contains c
  | _ => false

/-- The mutable fields of `NexusStreamTokenizer` that the parsers use. -/
structure TokState where
  stream : List Char
  cur : FChar
  eof : Bool
  prev : Option Char
  line : Nat
  col : Nat
  currentToken : Option String
  quoted : Bool
deriving DecidableEq, Repr

/-- Tokenizer construction over an in-memory string source (`reset`
followed by installing the stream handle). -/
def mkTokState (s : String) : TokState :=
  { stream := s.toList, cur := .unread, eof := false, prev := none,
    line := 1, col := 1, currentToken := none, quoted := false }

/-- `read_next_char`: one character from the stream; an exhausted stream
sets `eof` and makes the current character the empty string.  On a
successful read the line counter bumps when the previous character (two
reads ago) was a newline, `previous_file_char` becomes the old current
character, and the column counter is incremented. -/
def read_next_char (st : TokState) : TokState :=
  match st.stream with
  | [] => { st with eof := true, cur := .eochar }
  | c :: rest =>
    let bump := st.prev = some '\n'
    { st with
      stream := rest
      line := if bump then st.line + 1 else st.line
      col := (if bump then 0 else st.col) + 1
      prev := match st.cur with | .ch p => some p | _ => none
      cur := .ch c }

/-- Access to the `current_file_char` property: the first access triggers a
read. -/
def forceCur (st : TokState) : TokState :=
  if st.cur = .unread then read_next_char st else st

/-- `skip_comment`, fuel-indexed: consume a bracketed comment, recursing on
nested `[`, then advance one further character. -/
def skip_commentF : Nat → TokState → TokState
  | 0, st => st
  | fuel + 1, st =>
    let st := forceCur st
    if st.cur ≠ FChar.ch ']' ∧ st.eof = false then
      let st1 := read_next_char st
      let st2 := if st1.cur = FChar.ch '[' then skip_commentF fuel st1 else st1
      skip_commentF fuel st2
    else
      read_next_char st

/-- `read_noncomment_character`: skip a comment when the cursor sits on
`[`. -/
def read_noncomment_character (st : TokState) : TokState :=
  let st := forceCur st
  if st.cur = FChar.ch '[' then skip_commentF (2 * st.stream.length + 4) st else st

/-- `skip_to_significant_character` loop, fuel-indexed. -/
def skip_to_significantF : Nat → TokState → TokState
  | 0, st => st
  | fuel + 1, st =>
    let st := forceCur st
    if (isWsF st.cur || st.cur = FChar.ch '[') ∧ st.eof = false then
      let st1 := if st.cur = FChar.ch '[' then read_noncomment_character st
                 else read_next_char st
      skip_to_significantF fuel st1
    else st

/-- `skip_to_significant_character` with sufficient fuel. -/
def skip_to_significant_character (st : TokState) : TokState :=
  skip_to_significantF (2 * st.stream.length + 4) st

/-- The quoted-label loop of `read_next_token`: read until an unmatched
closing apostrophe, unescaping doubled apostrophes. -/
def read_quoted_tokenF : Nat → List Char → TokState → (List Char × TokState)
  | 0, acc, st => (acc, st)
  | fuel + 1, acc, st =>
    if st.eof = false then
      if st.cur = FChar.ch squote then
        let st1 := read_next_char st
        if st1.cur = FChar.ch squote then
          read_quoted_tokenF fuel (acc ++ [squote]) (read_next_char st1)
        else (acc, st1)
      else
        match st.cur with
        | .ch c => read_quoted_tokenF fuel (acc ++ [c]) (read_next_char st)
        | _ => (acc, read_next_char st)
    else (acc, st)

/-- The unquoted-word loop of `read_next_token`: accumulate characters
until whitespace, punctuation (unless ignored) or end of input. -/
def read_word_tokenF : Nat → List Char → List Char → TokState → (List Char × TokState)
  | 0, _, acc, st => (acc, st)
  | fuel + 1, ignore, acc, st =>
    if st.eof = false ∧ (isWsPunctF st.cur = false ∨ inIgnoreF st.cur ignore = true) then
      match st.cur with
      | .ch c => read_word_tokenF fuel ignore (acc ++ [c]) (read_next_char st)
      | _ => (acc, st)
    else (acc, st)

/-- `read_next_token(ignore_punctuation, preserve_quotes)`: the next word,
quoted label or punctuation character, recorded in `currentToken` (`None`
at end of input). -/
def read_next_token (ignore : List Char) (preserve_quotes : Bool)
    (st : TokState) : TokState :=
  if st.eof = false then
    let st := skip_to_significant_character st
    if st.eof = false then
      if st.cur = FChar.ch squote then
        let st1 := read_next_char st
        let p := read_quoted_tokenF (2 * st1.stream.length + 4) [] st1
        let tokStr := if preserve_quotes then String.mk ([squote] ++ p.1 ++ [squote])
                      else String.mk p.1
        { p.2 with currentToken := some tokStr, quoted := true }
      else
        if isPunctF st.cur = true ∧ inIgnoreF st.cur ignore = false then
          match st.cur with
          | .ch c =>
            { read_next_char st with currentToken := some (String.mk [c]), quoted := false }
          | _ => { st with currentToken := some "", quoted := false }
        else
          let p := read_word_tokenF (st.stream.length + 2) ignore [] st
          { p.2 with currentToken := some (String.mk p.1), quoted := false }
    else { st with currentToken := none }
  else { st with currentToken := none }

/-- Upper-casing of a Python string (`str.upper()`). -/
def strUpper (s : String) : String := String.mk (s.toList.map Char.toUpper)

/-- `read_next_token_ucase`: reads a token and returns its upper-cased
form; `currentToken` keeps the original case. -/
def read_next_token_ucase (ignore : List Char) (st : TokState) :
    TokState × Option String :=
  let st := read_next_token ignore false st
  (st, st.currentToken.map strUpper)

/-- The loop of `skip_to_semicolon`. -/
def skip_to_semicolonF : Nat → TokState → TokState
  | 0, st => st
  | fuel + 1, st =>
    if st.currentToken ≠ some (String.mk [';']) ∧ st.eof = false ∧
        st.currentToken ≠ none then
      skip_to_semicolonF fuel (read_next_token [] false st)
    else st

/-- `skip_to_semicolon`: discard tokens up to and including the next `;`. -/
def skip_to_semicolon (st : TokState) : TokState :=
  skip_to_semicolonF (st.stream.length + 2) (read_next_token [] false st)

/-- Python truthiness of an optional token: `None` and the empty string are
falsy. -/
def tokTruthy : Option String → Bool
  | none => false
  | some s => !(s = "")

/-- Rendering of an optional token inside a `%s` format (Python prints
`None` for the absent case). -/
def pyStr : Option String → String
  | none => "None"
  | some s => s

/-! ### Python float literals

`parse_newick_node_stream` calls `float(...)` on edge-length tokens and the
writer formats stored lengths with `%f`/`%0.10f`.  We model float values as
exact decimal rationals (plus the inf/nan specials) parsed from the
literal: the module only converts literals and prints them back, and no
claim below depends on binary rounding. -/

/-- A Python float produced by `float(literal)`. -/
inductive PyFloat where
  | fin (q : ℚ)
  | pinf
  | ninf
  | nan
deriving DecidableEq, Repr

/-- Leading run of decimal digits of a character list. -/
def spanDigits : List Char → List Char × List Char
  | [] => ([], [])
  | c :: rest =>
    if c.isDigit then
      let p := spanDigits rest
      (c :: p.1, p.2)
    else ([], c :: rest)

/-- Numeric value of a digit run. -/
def digitsVal (ds : List Char) : Nat :=
  ds.foldl (fun a c => a * 10 + (c.toNat - 48)) 0

/-- Whitespace stripped by `float()` around the literal. -/
def pyFloatWs (c : Char) : Bool :=
  c = ' ' || c = '\t' || c = '\n' || c = '\r' || c = Char.ofNat 11 || c = Char.ofNat 12

/-- Lower-casing of a character list. -/
def lowerL (cs : List Char) : List Char := cs.map Char.toLower

/-- `float(s)` on the characters of `s`: `none` models `ValueError`. -/
def pyFloatOfList (cs0 : List Char) : Option PyFloat :=
  let cs := ((cs0.dropWhile pyFloatWs).reverse.dropWhile pyFloatWs).reverse
  match cs with
  | [] => none
  | _ =>
    let sgned : Bool × List Char :=
      match cs with
      | '+' :: r => (false, r)
      | '-' :: r => (true, r)
      | r => (false, r)
    let neg := sgned.1
    let body := sgned.2
    if lowerL body = ['i', 'n', 'f'] ∨ lowerL body = ['i', 'n', 'f', 'i', 'n', 'i', 't', 'y'] then
      some (if neg then .ninf else .pinf)
    else if lowerL body = ['n', 'a', 'n'] then
      some .nan
    else
      let ip := spanDigits body
      let fp : Option (List Char) × List Char :=
        match ip.2 with
        | '.' :: r => let p := spanDigits r; (some p.1, p.2)
        | r => (none, r)
      if ip.1 = [] ∧ (fp.1 = none ∨ fp.1 = some []) then none
      else
        let fdigs := (fp.1).getD []
        let mant : ℚ :=
          (digitsVal ip.1 : ℚ) + (digitsVal fdigs : ℚ) / ((10 : ℚ) ^ fdigs.length)
        let sm : ℚ := if neg then -mant else mant
        match fp.2 with
        | [] => some (.fin sm)
        | e :: r3 =>
          if e = 'e' ∨ e = 'E' then
            let esgned : Bool × List Char :=
              match r3 with
              | '+' :: r => (false, r)
              | '-' :: r => (true, r)
              | r => (false, r)
            let ed := spanDigits esgned.2
            if ed.1 = [] ∨ ed.2 ≠ [] then none
            else
              let ex : ℤ := if esgned.1 then -(digitsVal ed.1 : ℤ) else (digitsVal ed.1 : ℤ)
              some (.fin (sm * (10 : ℚ) ^ ex))
          else none

/-- `float(s)` for a string. -/
def pyFloatOfString (s : String) : Option PyFloat := pyFloatOfList s.toList

/-- Whether `float(s)` succeeds (no `ValueError`). -/
def pyFloatParses (s : String) : Bool := (pyFloatOfString s).isSome

/-- Left-pad a digit string with zeros to the given width. -/
def padZeros (w : Nat) (s : String) : String :=
  String.mk (List.replicate (w - s.length) '0') ++ s

/-- `"%.<prec>f" % v`: fixed-point rendering of a float value.  On our
exact-rational model we round half away from zero; the specials render as
C's printf renders them. -/
def fmtFixed (prec : Nat) : PyFloat → String
  | .pinf => "inf"
  | .ninf => "-inf"
  | .nan => "nan"
  | .fin q =>
    let neg := q < 0
    let scaled : Nat := (Rat.floor (|q| * (10 : ℚ) ^ prec + 1 / 2)).toNat
    let ipart := scaled / 10 ^ prec
    let fpart := scaled % 10 ^ prec
    (if neg then "-" else "") ++ Nat.repr ipart ++
      (if prec = 0 then "" else "." ++ padZeros prec (Nat.repr fpart))

/-! ### The in-memory tree model (Node/Edge/Tree as the parser populates
them) and the Python error channel -/

/-- The value stored in `node.edge.length`: absent (`None`), a float
stored by a successful `float(token)` (we keep the originating token; the
float value is `pyFloatOfString` of it), or a string (the `ValueError`
fallback of `parse_newick_node_stream`, and the raw assignment made for
the seed node by `parse_newick_tree_stream`). -/
inductive EdgeLen where
  | absent
  | flt (s : String)
  | lit (s : String)
deriving DecidableEq, Repr

/-- A DendroPy `Node` as far as this module reads and writes it: label,
inbound edge length, resolved taxon label, synthetic object id (`oid`,
modelled from the spec as an opaque string since the trees module is not
among the sources), and ordered children. -/
inductive PNode where
  | node (label : Option String) (elen : EdgeLen) (taxon : Option String)
      (oid : String) (children : List PNode)

/-- Label of a node. -/
def PNode.label : PNode → Option String
  | .node l _ _ _ _ => l

/-- Edge length of a node. -/
def PNode.elen : PNode → EdgeLen
  | .node _ e _ _ _ => e

/-- Taxon label resolved for a node. -/
def PNode.taxon : PNode → Option String
  | .node _ _ t _ _ => t

/-- Synthetic object id of a node. -/
def PNode.oid : PNode → String
  | .node _ _ _ o _ => o

/-- Children of a node (`node.child_nodes()`). -/
def PNode.children : PNode → List PNode
  | .node _ _ _ _ c => c

/-- `trees.Node()`: a fresh node. -/
def newNode : PNode := .node none .absent none "" []

/-- Replace the label of a node. -/
def PNode.setLabel : PNode → Option String → PNode
  | .node _ e t o c, l => .node l e t o c

/-- Replace the edge length of a node (`node.edge.length = ...`). -/
def PNode.setElen : PNode → EdgeLen → PNode
  | .node l _ t o c, e => .node l e t o c

/-- `node.add_child(child)`. -/
def PNode.addChild : PNode → PNode → PNode
  | .node l e t o c, child => .node l e t o (c ++ [child])

/-- A DendroPy `Tree` as far as this module uses it: the seed (root) node,
the taxa block it was resolved against (modelled as its ordered list of
taxon labels) and the optional label assigned by `parse_tree_statement`. -/
structure PTree where
  seed : PNode
  taxa : List String
  label : Option String

/-- Python exceptions that can escape the embedded functions, plus the
fuel-exhaustion marker of the embedding itself (`fuelOut` is not a Python
error; the public entry points supply enough fuel for it never to occur on
the runs the theorems below talk about). -/
inductive PyErr where
  | synErr (row col : Nat) (msg : String)
  | typeErr (msg : String)
  | attrErr (msg : String)
  | keyErr (msg : String)
  | exc (msg : String)
  | fuelOut
deriving DecidableEq, Repr

/-- `_parse_taxon_label(token, stream_tokenizer)`: underscores in unquoted
labels become spaces (nexus.py lines 144-149). -/
def parse_taxon_label (tok : String) (quoted : Bool) : String :=
  if quoted = false ∧ 0 < tok.toList.count '_' then
    String.mk (tok.toList.map (fun c => if c = '_' then ' ' else c))
  else tok

/-! ### parse_newick_node_stream / parse_newick_tree_stream
(nexus.py lines 230-305)

The `while` loops become fuel-indexed mutually recursive functions; one
fuel unit is consumed per loop iteration or recursive call.  The `tree`
argument of `parse_newick_node_stream` is not used by its body and is
omitted.  `if child_node:`/`if node:` tests on freshly constructed `Node`
objects are always true in Python and are translated away (noted
inline). -/

mutual

/-- `parse_newick_node_stream`: create a node, read a token, run the node
loop. -/
def parse_newick_node_streamF : Nat → TokState → Except PyErr (PNode × TokState)
  | 0, _ => .error .fuelOut
  | fuel + 1, st =>
    let st := read_next_token [] false st
    parse_node_loopF fuel st.currentToken newNode st

/-- The main `while` loop of `parse_newick_node_stream`.  The three `if`
statements of the body are sequential in the source; since `:` and `(` are
punctuation, at most one of the label branch, the `:` branch and the `(`
branch fires per iteration, and the translation chains them with
`else if`. -/
def parse_node_loopF : Nat → Option String → PNode → TokState →
    Except PyErr (PNode × TokState)
  | 0, _, _, _ => .error .fuelOut
  | fuel + 1, token, node, st =>
    if tokTruthy token = true ∧ token ≠ some ")" ∧ token ≠ some "," ∧
        token ≠ some ";" then
      let s := token.getD ""
      let node :=
        if s = "." ∨ strInPunct s = false then
          match node.label with
          | none => node.setLabel (some (parse_taxon_label s st.quoted))
          | some l => node.setLabel (some (l ++ parse_taxon_label s st.quoted))
        else node
      if s = ":" then
        let st1 := read_next_token ['-'] false st
        match st1.currentToken with
        | none => .error (.typeErr "float() argument must be a string or a number")
        | some ls =>
          let node := node.setElen (if pyFloatParses ls then .flt ls else .lit ls)
          let st2 := read_next_token [] false st1
          parse_node_loopF fuel st2.currentToken node st2
      else if s = "(" then
        match parse_node_childrenF fuel token node st with
        | .error e => .error e
        | .ok (node, st1, _) =>
          let st2 := read_next_token [] false st1
          parse_node_loopF fuel st2.currentToken node st2
      else
        let st2 := read_next_token [] false st
        parse_node_loopF fuel st2.currentToken node st2
    else .ok (node, st)

/-- The inner `while token and token != ')'` loop of the `(` branch:
parse children (always appended: a fresh `Node` is Python-truthy) until
the matching close parenthesis. -/
def parse_node_childrenF : Nat → Option String → PNode → TokState →
    Except PyErr (PNode × TokState × Option String)
  | 0, _, _, _ => .error .fuelOut
  | fuel + 1, token, node, st =>
    if tokTruthy token = true ∧ token ≠ some ")" then
      match parse_newick_node_streamF fuel st with
      | .error e => .error e
      | .ok (child, st1) =>
        parse_node_childrenF fuel st1.currentToken (node.addChild child) st1
    else .ok (node, st, token)

end

/-- Modelled from the spec: `TaxaBlock.get_taxon(label=...)` (the taxa
module is not among the sources).  Get-or-create semantics: return the
taxa block extended with the label when it is new. -/
def getTaxon (taxa : List String) (label : String) : List String :=
  if taxa.contains label then taxa else taxa ++ [label]

/-- Lookup in the translate dictionary (`label in translate_dict` /
`translate_dict[label]`). -/
def trLookup (tr : List (String × String)) (label : String) : Option String :=
  (tr.find? (fun p => p.1 = label)).map Prod.snd

mutual

/-- The `for node in tree.leaf_nodes()` loop closing
`parse_newick_tree_stream`: each leaf with a truthy label gets its taxon
set to `taxa_block.get_taxon(label=...)`, the label being first mapped
through the translate dictionary when that dictionary is truthy (non-empty)
and contains it.  The traversal order of `leaf_nodes()` (trees module, not
among the sources) is modelled from the spec as left-to-right. -/
def resolveLeavesN (tr : List (String × String)) (taxa : List String) :
    PNode → PNode × List String
  | .node lbl el tx oid [] =>
    if tokTruthy lbl then
      let rawLbl := lbl.getD ""
      let label :=
        match (if tr ≠ [] then trLookup tr rawLbl else none) with
        | some mapped => mapped
        | none => rawLbl
      (.node lbl el (some label) oid [], getTaxon taxa label)
    else (.node lbl el tx oid [], taxa)
  | .node lbl el tx oid (c :: cs) =>
    let p := resolveLeavesL tr taxa (c :: cs)
    (.node lbl el tx oid p.1, p.2)

/-- Leaf resolution over a list of sibling subtrees, threading the taxa
block left to right. -/
def resolveLeavesL (tr : List (String × String)) (taxa : List String) :
    List PNode → List PNode × List String
  | [] => ([], taxa)
  | c :: cs =>
    let p := resolveLeavesN tr taxa c
    let q := resolveLeavesL tr p.2 cs
    (p.1 :: q.1, q.2)

end

/-- The main `while` loop of `parse_newick_tree_stream` (nexus.py lines
244-258), including the close-parenthesis lookahead that either breaks
with a root label token or continues. -/
def parse_tree_loopF : Nat → Option String → List PNode → TokState →
    Except PyErr (Option String × List PNode × TokState)
  | 0, _, _, _ => .error .fuelOut
  | fuel + 1, token, kids, st =>
    if tokTruthy token = true ∧ token ≠ some ";" ∧ token ≠ some ":" then
      match parse_newick_node_streamF fuel st with
      | .error e => .error e
      | .ok (nd, st1) =>
        let kids := kids ++ [nd]
        if st1.currentToken = some ")" then
          let st2 := read_next_token [] false st1
          let token2 := st2.currentToken
          if tokTruthy token2 = true ∧ strInPunct (token2.getD "") = false then
            .ok (token2, kids, st2)
          else parse_tree_loopF fuel token2 kids st2
        else parse_tree_loopF fuel st1.currentToken kids st1
    else .ok (token, kids, st)

/-- The root-label step of the tail of `parse_newick_tree_stream`:
`if token and not token in
punctuation: seed.label = ...; token = read_next_token()`. -/
def tree_root_label_step (seed : PNode) (token : Option String)
    (st : TokState) : PNode × TokState × Option String :=
  if tokTruthy token = true ∧ strInPunct (token.getD "") = false then
    let seed1 := seed.setLabel (some (parse_taxon_label (token.getD "") st.quoted))
    let st1 := read_next_token [] false st
    (seed1, st1, st1.currentToken)
  else (seed, st, token)

/-- The root-length step of the tail: `if token and token == ':':
length = read_next_token(ignore_punctuation='-');
seed.edge.length = length` — the raw token string, no `float`
conversion (and `None` leaves the length absent, as the attribute
defaulted to `None`). -/
def tree_root_length_step (seed : PNode) (token : Option String)
    (st : TokState) : PNode × TokState :=
  if tokTruthy token = true ∧ token = some ":" then
    let st2 := read_next_token ['-'] false st
    let seed2 :=
      match st2.currentToken with
      | none => seed
      | some ls => seed.setElen (.lit ls)
    (seed2, st2)
  else (seed, st)

def parse_tree_finish (tr : List (String × String)) (taxa : List String)
    (token : Option String) (kids : List PNode) (st : TokState) :
    PTree × TokState :=
  let seed := kids.foldl PNode.addChild newNode
  let p1 := tree_root_label_step seed token st
  let p2 := tree_root_length_step p1.1 p1.2.2 p1.2.1
  let q := resolveLeavesN tr taxa p2.1
  ({ seed := q.1, taxa := q.2, label := none }, p2.2)

/-- `parse_newick_tree_stream(stream_tokenizer, taxa_block,
translate_dict)` (nexus.py lines 230-276): `None` when the first token is
falsy, otherwise a `Tree` built by the statement loop and
`parse_tree_finish`. -/
def parse_newick_tree_streamF (fuel : Nat) (taxa0 : Option (List String))
    (tr : List (String × String)) (st : TokState) :
    Except PyErr (Option PTree × TokState) :=
  let st := read_next_token [] false st
  let token := st.currentToken
  if tokTruthy token = false then .ok (none, st)
  else
    let taxa := taxa0.getD []
    match parse_tree_loopF fuel token [] st with
    | .error e => .error e
    | .ok (token, kids, st) =>
      let p := parse_tree_finish tr taxa token kids st
      .ok (some p.1, p.2)

/-- Fuel budget used by the public parsing entry points: ample for any run
of the source on the given stream. -/
def fuelFor (st : TokState) : Nat := 4 * st.stream.length + 16

/-- `parse_newick_string(tree_statement)` (nexus.py lines 221-228): parse
a single NEWICK tree statement from a string, with a fresh taxa block and
no translate dictionary. -/
def parse_newick_string (s : String) : Except PyErr (Option PTree × TokState) :=
  let st := mkTokState s
  parse_newick_tree_streamF (fuelFor st) none [] st

/-- The `while tree is not None` loop of `NewickReader.read_trees`: append
the tree just parsed, then parse the next statement against the assigned
taxa block (a single mutable object in the source; its content after each
parse is the parsed tree's taxa list, which the loop threads). -/
def read_trees_loopF : Nat → List PTree → List String →
    TokState → Except PyErr (List PTree)
  | 0, _, _, _ => .error .fuelOut
  | fuel + 1, acc, taxa, st =>
    match parse_newick_tree_streamF (fuelFor st) (some taxa) [] st with
    | .error e => .error e
    | .ok (none, _) => .ok acc
    | .ok (some tree, st1) =>
      read_trees_loopF fuel (acc ++ [tree]) tree.taxa st1

/-- `NewickReader.read_trees(file_obj, taxa_block=None)` (nexus.py lines
1031-1048) on a string source: the first statement is parsed before any
`None` check, and since no taxa block was supplied the source then runs
`taxa_block = tree.taxa_block` (line 1043) — an `AttributeError` when that
first parse returned `None`, `tree` being Python `None` (so even an empty
source raises).  Otherwise the `while` loop collects the first tree and
the remaining statements until one parses to `None`. -/
def newick_read_trees (s : String) : Except PyErr (List PTree) :=
  let st := mkTokState s
  match parse_newick_tree_streamF (fuelFor st) none [] st with
  | .error e => .error e
  | .ok (none, _) =>
    .error (.attrErr "NoneType object has no attribute taxa_block")
  | .ok (some tree, st1) =>
    read_trees_loopF (st.stream.length + 4) [tree] tree.taxa st1

/-! ### NewickWriter (nexus.py lines 1053-1135)

`NewickWriter()` sets `edge_lengths = True` and `internal_labels = True`;
`compose_node` is modelled at this default configuration, which is the one
the claims below are about. -/

/-- The character class `'[' + whitespace + punctuation + ']'` used by
`NewickWriter.compose_taxlabel`: whitespace or punctuation. -/
def needsQuoteChar (c : Char) : Bool := isWsChar c || isPunctChar c

/-- `NewickWriter.compose_taxlabel(label)`: wrap the label in apostrophes
when it contains whitespace or punctuation (no escaping of inner
apostrophes is performed). -/
def nw_compose_taxlabel (label : String) : String :=
  if label.toList.any needsQuoteChar then
    String.mk ([squote] ++ label.toList ++ [squote])
  else label

/-- `NewickWriter.choose_display_tag(node)`: the taxon's label when a
taxon object is attached, else a truthy node label, else the synthetic
object id for leaves, else the empty string for internal nodes. -/
def choose_display_tag (nd : PNode) : String :=
  match nd.taxon with
  | some t => nw_compose_taxlabel t
  | none =>
    if tokTruthy nd.label then nw_compose_taxlabel (nd.label.getD "")
    else if nd.children.length = 0 then nw_compose_taxlabel nd.oid
    else ""

/-- Edge-length suffix common to both branches of `compose_node`:
`"%s:%<fmt>f" % (statement, float(length))` with the `ValueError` fallback
`"%s:%s"`.  A length stored as a float (`EdgeLen.flt`) formats its value
(the `getD` default is unreachable: `flt` tokens parse by construction);
a literal length is converted by `float` first and falls back to the raw
string. -/
def elenSuffix (prec : Nat) : EdgeLen → String
  | .absent => ""
  | .flt s => ":" ++ fmtFixed prec ((pyFloatOfString s).getD .nan)
  | .lit s =>
    match pyFloatOfString s with
    | some v => ":" ++ fmtFixed prec v
    | none => ":" ++ s

/-- `','.join(subnodes)`. -/
def compose_join : List String → String
  | [] => ""
  | [x] => x
  | x :: xs => x ++ "," ++ compose_join xs

mutual

/-- `NewickWriter.compose_node(node)` at the default configuration: an
internal node renders its parenthesized comma-joined children, its display
tag and a `%f` edge-length suffix; a leaf renders its display tag and a
`%0.10f` suffix. -/
def compose_node : PNode → String
  | .node lbl el tx oid [] =>
    choose_display_tag (.node lbl el tx oid []) ++ elenSuffix 10 el
  | .node lbl el tx oid (c :: cs) =>
    "(" ++ compose_join (compose_list (c :: cs)) ++ ")" ++
      choose_display_tag (.node lbl el tx oid (c :: cs)) ++ elenSuffix 6 el

/-- `[self.compose_node(child) for child in child_nodes]`. -/
def compose_list : List PNode → List String
  | [] => []
  | c :: cs => compose_node c :: compose_list cs

end

/-! ### NexusReader (nexus.py lines 520-877)

The reader's mutable attributes become the record `RState`.  The
`datasets`, `taxa`, `trees` and `characters` modules are not among the
sources; the few object behaviours the reader relies on (dataset
containers, get-or-create taxon lookup, state alphabet elements, reader
configuration defaults) are modelled from the spec and marked as such. -/

/-- The `char_block_type` attribute: one of the four character-block
classes assigned by `parse_format_statement`. -/
inductive CharKind where
  | standard
  | dna
  | rna
  | protein
deriving DecidableEq, Repr

/-- Modelled from the spec: `characters.StateAlphabetElement` — a symbol,
whether the state is an ambiguous multistate, and for ambiguous states the
member fundamental states (by symbol).  The characters module is not among
the sources. -/
structure StateAlphElem where
  symbol : String
  ambiguous : Bool
  memberStates : List String
deriving DecidableEq, Repr

/-- Modelled from the spec: the fixed state alphabets of the DNA, RNA and
protein character-block classes of the missing characters module
(fundamental symbols only; no claim below exercises these blocks'
contents). -/
def specFixedAlphabet : CharKind → List StateAlphElem
  | .dna => "ACGT-".toList.map (fun c => ⟨String.mk [c], false, []⟩)
  | .rna => "ACGU-".toList.map (fun c => ⟨String.mk [c], false, []⟩)
  | .protein => "ACDEFGHIKLMNPQRSTVWY-".toList.map (fun c => ⟨String.mk [c], false, []⟩)
  | .standard => []

/-- A character block as `parse_matrix_statement` populates it: kind,
state alphabet and the per-taxon sequences of resolved states (a state
modelled by its symbol). -/
structure CharBlock where
  kind : CharKind
  alphabet : List StateAlphElem
  rows : List (String × List String)
deriving DecidableEq, Repr

/-- `datasets.Dataset` as far as this module populates it (taxa blocks as
ordered label lists, character blocks, trees blocks). -/
structure Dataset where
  taxaBlocks : List (List String)
  charBlocks : List CharBlock
  treesBlocks : List (List PTree)

/-- A fresh `datasets.Dataset()`. -/
def emptyDataset : Dataset := ⟨[], [], []⟩

/-- The mutable state of `NexusReader`.  The fields of `reset` are from
the source; `include_characters`/`include_trees` (defaulting to true) and
the initially-absent `file_specified_ntax`/`file_specified_nchar` are
modelled from the spec, their initialization living in the missing
`datasets.Reader` base class. -/
structure RState where
  dataset : Dataset
  char_block_type : CharKind
  interleave : Bool
  symbols : String
  gap_char : Option String
  missing_char : Option String
  match_char : Option String
  tree_translate : List (String × String)
  file_specified_ntax : Option Nat
  file_specified_nchar : Option Nat
  include_characters : Bool
  include_trees : Bool

/-- `NexusReader.reset` (nexus.py lines 536-544): fresh dataset, STANDARD
block type, no interleaving, symbols `"012"`, gap `-`, missing `?`,
match `.`, empty translate dictionary.  It does not touch the
file-specified dimensions. -/
def nexus_reader_reset (rs : RState) : RState :=
  { rs with
    dataset := emptyDataset
    char_block_type := .standard
    interleave := false
    symbols := "012"
    gap_char := some "-"
    missing_char := some "?"
    match_char := some "."
    tree_translate := [] }

/-- `NexusReader()` fresh state: spec-modelled reader defaults followed by
`reset`. -/
def initialRState : RState :=
  nexus_reader_reset
    { dataset := emptyDataset, char_block_type := .standard,
      interleave := false, symbols := "012", gap_char := some "-",
      missing_char := some "?", match_char := some ".", tree_translate := [],
      file_specified_ntax := none, file_specified_nchar := none,
      include_characters := true, include_trees := true }

/-- `self.syntax_exception(message)`: a `SyntaxException` carrying the
tokenizer's current line and column. -/
def mkSynErr (st : TokState) (msg : String) : PyErr :=
  .synErr st.line st.col msg

/-- Python substring test `sub in s` for strings. -/
def strInStr (sub s : String) : Bool :=
  decide (sub.toList <:+: s.toList)

/-- Python `str.isdigit()` (true on a nonempty all-digit string). -/
def pyIsdigit (s : String) : Bool :=
  s ≠ "" && s.toList.all Char.isDigit

/-- Python `str.startswith(p)` restricted to what the source uses. -/
def pyStartswith (s p : String) : Bool :=
  decide (p.toList <+: s.toList)

/-- The inner `while token != '"'` loop of the SYMBOLS branch of
`parse_format_statement`: accumulate tokens not already contained (as
substrings) in the symbol string.  An end of input inside the list makes
the Python `token not in self.symbols` test raise a `TypeError`. -/
def symbols_loopF : Nat → Option String → String → TokState →
    Except PyErr (String × TokState)
  | 0, _, _, _ => .error .fuelOut
  | fuel + 1, token, sym, st =>
    if token ≠ some (String.mk [dquote]) then
      match token with
      | none => .error (.typeErr "in <string> requires string as left operand, not NoneType")
      | some t =>
        let sym := if strInStr t sym = false then sym ++ t else sym
        let q := read_next_token_ucase [] st
        symbols_loopF fuel q.2 sym q.1
    else .ok (sym, st)

/-- The `while token != ';'` loop of `parse_format_statement` (nexus.py
lines 653-723).  Each keyword branch is translated literally, including
the MATCHCHAR branch's error message, which names MISSING. -/
def parse_format_loopF : Nat → Option String → RState → TokState →
    Except PyErr (RState × TokState)
  | 0, _, _, _ => .error .fuelOut
  | fuel + 1, token, rs, st =>
    if token ≠ some ";" then
      if token = some "DATATYPE" then
        let q := read_next_token_ucase [] st
        if q.2 = some "=" then
          let q2 := read_next_token_ucase [] q.1
          let rs :=
            if q2.2 = some "DNA" ∨ q2.2 = some "NUCLEOTIDES" then
              { rs with char_block_type := .dna }
            else if q2.2 = some "RNA" then
              { rs with char_block_type := .rna }
            else if q2.2 = some "PROTEIN" then
              { rs with char_block_type := .protein }
            else
              { rs with char_block_type := .standard, symbols := "12" }
          let q3 := read_next_token_ucase [] q2.1
          parse_format_loopF fuel q3.2 rs q3.1
        else .error (mkSynErr q.1 "Expecting \"=\" after DATATYPE keyword")
      else if token = some "SYMBOLS" then
        let q := read_next_token_ucase [] st
        if q.2 = some "=" then
          let q2 := read_next_token_ucase [] q.1
          if q2.2 = some (String.mk [dquote]) then
            let q3 := read_next_token_ucase [] q2.1
            match symbols_loopF fuel q3.2 "" q3.1 with
            | .error e => .error e
            | .ok (sym, st4) =>
              let q5 := read_next_token_ucase [] st4
              parse_format_loopF fuel q5.2 { rs with symbols := sym } q5.1
          else
            .error (mkSynErr q2.1
              ("Expecting " ++ String.mk [squote, dquote, squote] ++
               " before beginning SYMBOLS list"))
        else .error (mkSynErr q.1 "Expecting \"=\" after SYMBOLS keyword")
      else if token = some "GAP" then
        let q := read_next_token_ucase [] st
        if q.2 = some "=" then
          let q2 := read_next_token_ucase [] q.1
          let q3 := read_next_token_ucase [] q2.1
          parse_format_loopF fuel q3.2 { rs with gap_char := q2.2 } q3.1
        else .error (mkSynErr q.1 "Expecting \"=\" after GAP keyword")
      else if token = some "INTERLEAVE" then
        let q := read_next_token_ucase [] st
        if q.2 = some "=" then
          let q2 := read_next_token_ucase [] q.1
          match q2.2 with
          | none => .error (.attrErr "NoneType object has no attribute upper")
          | some t =>
            let rs := if pyStartswith (strUpper t) "N" then
                { rs with interleave := false }
              else { rs with interleave := true }
            let q3 := read_next_token_ucase [] q2.1
            parse_format_loopF fuel q3.2 rs q3.1
        else
          let q3 := read_next_token_ucase [] q.1
          parse_format_loopF fuel q3.2 { rs with interleave := true } q3.1
      else if token = some "MISSING" then
        let q := read_next_token_ucase [] st
        if q.2 = some "=" then
          let q2 := read_next_token_ucase [] q.1
          let q3 := read_next_token_ucase [] q2.1
          parse_format_loopF fuel q3.2 { rs with missing_char := q2.2 } q3.1
        else .error (mkSynErr q.1 "Expecting \"=\" after MISSING keyword")
      else if token = some "MATCHCHAR" then
        let q := read_next_token_ucase [] st
        if q.2 = some "=" then
          let q2 := read_next_token_ucase [] q.1
          let q3 := read_next_token_ucase [] q2.1
          parse_format_loopF fuel q3.2 { rs with match_char := q2.2 } q3.1
        else .error (mkSynErr q.1 "Expecting \"=\" after MISSING keyword")
      else
        let q := read_next_token_ucase [] st
        parse_format_loopF fuel q.2 rs q.1
    else .ok (rs, st)

/-- `NexusReader.parse_format_statement`: read a token and run the loop. -/
def parse_format_statement (rs : RState) (st : TokState) :
    Except PyErr (RState × TokState) :=
  let q := read_next_token_ucase [] st
  parse_format_loopF (st.stream.length + 4) q.2 rs q.1

/-- The `while token != ';'` loop of `parse_dimensions_statement`
(nexus.py lines 770-798). -/
def parse_dimensions_loopF : Nat → Option String → RState → TokState →
    Except PyErr (RState × TokState)
  | 0, _, _, _ => .error .fuelOut
  | fuel + 1, token, rs, st =>
    if token ≠ some ";" then
      if token = some "NTAX" then
        let q := read_next_token_ucase [] st
        if q.2 = some "=" then
          let q2 := read_next_token_ucase [] q.1
          match q2.2 with
          | none => .error (.attrErr "NoneType object has no attribute isdigit")
          | some t =>
            if pyIsdigit t then
              let q3 := read_next_token_ucase [] q2.1
              parse_dimensions_loopF fuel q3.2
                { rs with file_specified_ntax := some (digitsVal t.toList) } q3.1
            else .error (mkSynErr q2.1 "Expecting numeric value for NTAX")
        else .error (mkSynErr q.1 "Expecting \"=\" after NTAX keyword")
      else if token = some "NCHAR" then
        let q := read_next_token_ucase [] st
        if q.2 = some "=" then
          let q2 := read_next_token_ucase [] q.1
          match q2.2 with
          | none => .error (.attrErr "NoneType object has no attribute isdigit")
          | some t =>
            if pyIsdigit t then
              let q3 := read_next_token_ucase [] q2.1
              parse_dimensions_loopF fuel q3.2
                { rs with file_specified_nchar := some (digitsVal t.toList) } q3.1
            else .error (mkSynErr q2.1 "Expecting numeric value for NCHAR")
        else .error (mkSynErr q.1 "Expecting \"=\" after NCHAR keyword")
      else
        let q := read_next_token_ucase [] st
        parse_dimensions_loopF fuel q.2 rs q.1
    else .ok (rs, st)

/-- `NexusReader.parse_dimensions_statement`. -/
def parse_dimensions_statement (rs : RState) (st : TokState) :
    Except PyErr (RState × TokState) :=
  let q := read_next_token_ucase [] st
  parse_dimensions_loopF (st.stream.length + 4) q.2 rs q.1

/-- `NexusReader.get_default_taxa_block()` with no argument (the only way
this module calls it): ensure the dataset has a taxa block and use its
first one. -/
def get_default_taxa_block (rs : RState) : RState × List String :=
  match rs.dataset.taxaBlocks with
  | [] => ({ rs with dataset := { rs.dataset with taxaBlocks := [[]] } }, [])
  | tb :: _ => (rs, tb)

/-- Write the (single, shared) first taxa block back into the dataset. -/
def setTaxaBlock (rs : RState) (tb : List String) : RState :=
  { rs with dataset :=
      { rs.dataset with taxaBlocks := tb :: rs.dataset.taxaBlocks.tail } }

/-- Python dict assignment `d[k] = v` on the translate dictionary. -/
def dictSet (d : List (String × String)) (k v : String) :
    List (String × String) :=
  if d.any (fun p => p.1 = k) then
    d.map (fun p => if p.1 = k then (k, v) else p)
  else d ++ [(k, v)]

/-- `NexusReader.parse_tree_statement(taxa_block)` (nexus.py lines
725-752): optional `*` marker, tree name, mandatory `=` (a syntax error
naming the tree otherwise), then a NEWICK statement whose tree gets the
name as its label; trailing tokens are discarded up to the `;`.  The taxa
block is threaded through and returned updated. -/
def parse_tree_statement (rs : RState) (taxa : List String) (st : TokState) :
    Except PyErr (PTree × List String × TokState) :=
  let st1 := read_next_token [] false st
  let st2 := if st1.currentToken = some "*" then read_next_token [] false st1 else st1
  let tree_name := st2.currentToken
  let st3 := read_next_token [] false st2
  if st3.currentToken ≠ some "=" then
    .error (mkSynErr st3
      ("Expecting \"=\" in definition of Tree \"" ++ pyStr tree_name ++
       "\" but found \"" ++ pyStr st3.currentToken ++ "\""))
  else
    match parse_newick_tree_streamF (fuelFor st3) (some taxa) rs.tree_translate st3 with
    | .error e => .error e
    | .ok (none, _) =>
      .error (.attrErr "NoneType object has no attribute label")
    | .ok (some tree, st4) =>
      let tree := { tree with label := tree_name }
      let st5 := if st4.currentToken ≠ some ";" then skip_to_semicolon st4 else st4
      .ok (tree, tree.taxa, st5)

/-- The `while token and token != ';'` loop of
`parse_translate_statement` (nexus.py lines 754-768): triples
`token label sep`, the separator being `,` or `;` on pain of a syntax
error; each pair is entered into the translate dictionary. -/
def parse_translate_loopF : Nat → Option String → RState → TokState →
    Except PyErr (RState × TokState)
  | 0, _, _, _ => .error .fuelOut
  | fuel + 1, token, rs, st =>
    if tokTruthy token = true ∧ token ≠ some ";" then
      let st1 := read_next_token [] false st
      let translation_token := st1.currentToken
      let st2 := read_next_token [] false st1
      let translation_label := st2.currentToken
      let st3 := read_next_token [] false st2
      let sep := st3.currentToken
      if sep ≠ some "," ∧ sep ≠ some ";" then
        .error (mkSynErr st3
          ("Expecting \",\" in TRANSLATE statement after definition for " ++
           pyStr translation_token ++ " = \"" ++ pyStr translation_label ++
           "\", but found \"" ++ pyStr sep ++ "\" instead"))
      else
        let d := dictSet rs.tree_translate (pyStr translation_token)
          (pyStr translation_label)
        parse_translate_loopF fuel sep { rs with tree_translate := d } st3
    else .ok (rs, st)

/-- `NexusReader.parse_translate_statement`: the loop starts from the
current token (the `TRANSLATE` keyword just read, which is truthy). -/
def parse_translate_statement (rs : RState) (st : TokState) :
    Except PyErr (RState × TokState) :=
  parse_translate_loopF (st.stream.length + 4) st.currentToken rs st

/-- Modelled from the spec: `TaxaBlock.add_taxon(label=...)` (taxa module
not among the sources): get-or-create by label. -/
def add_taxon (taxa : List String) (label : String) : List String :=
  getTaxon taxa label

/-- The `while token != ';'` loop of `parse_taxlabels_statement` (nexus.py
lines 812-821).  At end of input the token is `None` and
`_parse_taxon_label` calls `None.count`, an `AttributeError`. -/
def parse_taxlabels_loopF : Nat → Option String → List String → TokState →
    Except PyErr (List String × TokState)
  | 0, _, _, _ => .error .fuelOut
  | fuel + 1, token, taxa, st =>
    if token ≠ some ";" then
      match token with
      | none => .error (.attrErr "NoneType object has no attribute count")
      | some t =>
        let taxa := add_taxon taxa (parse_taxon_label t st.quoted)
        let st1 := read_next_token [] false st
        parse_taxlabels_loopF fuel st1.currentToken taxa st1
    else .ok (taxa, st)

/-- `NexusReader.parse_taxlabels_statement()`: get the default taxa block,
then add a taxon per token up to the `;`. -/
def parse_taxlabels_statement (rs : RState) (st : TokState) :
    Except PyErr (RState × TokState) :=
  let p := get_default_taxa_block rs
  let st1 := read_next_token [] false st
  match parse_taxlabels_loopF (st.stream.length + 4) st1.currentToken p.2 st1 with
  | .error e => .error e
  | .ok (taxa, st2) => .ok (setTaxaBlock p.1 taxa, st2)

/-- `NexusReader.build_state_alphabet(char_block, symbols)` (nexus.py
lines 823-833): one fundamental state per symbol character, plus — when a
missing character is configured — an ambiguous state whose members are the
fundamental states (`sa.get_states(symbols=symbols)`, modelled from the
spec as the states of those symbols). -/
def build_state_alphabet (missing_char : Option String) (symbols : String) :
    List StateAlphElem :=
  let sa : List StateAlphElem :=
    symbols.toList.map (fun c => ⟨String.mk [c], false, []⟩)
  if tokTruthy missing_char then
    sa ++ [⟨missing_char.getD "", true, sa.map (fun e => e.symbol)⟩]
  else sa

/-- `symbol_state_map()` of a state alphabet (characters module, modelled
from the spec): map a one-character symbol to its state. -/
def symbol_state_map (sa : List StateAlphElem) (c : Char) : Option String :=
  (sa.find? (fun e => e.symbol = String.mk [c])).map (fun e => e.symbol)

/-! ### parse_sequence_iupac_ambiguities (nexus.py lines 183-216) -/

/-- Lazy body of `{(.*?)}` after an opening brace: the characters up to
the first closing brace, failing on a newline (`.` does not match one) or
end of sequence; also returns the number of characters consumed including
the closing brace. -/
def scanGroupClose : List Char → Option (List Char × Nat)
  | [] => none
  | c :: rest =>
    if c = cbrace then some ([], 1)
    else if c = '\n' then none
    else
      match scanGroupClose rest with
      | none => none
      | some (inner, n) => some (c :: inner, n + 1)

/-- Scan for the earliest match of `{(.*?)}` from absolute index `i` of
the suffix given; returns match start, match end (just past the closing
brace) and the group. -/
def findGroup : List Char → Nat → Option (Nat × Nat × List Char)
  | [], _ => none
  | c :: rest, i =>
    if c = obrace then
      match scanGroupClose rest with
      | some (inner, n) => some (i, i + 1 + n, inner)
      | none => findGroup rest (i + 1)
    else findGroup rest (i + 1)

/-- `pattern.search(seq, pos)` for the compiled pattern `{(.*?)}`. -/
def reSearchGroup (cs : List Char) (pos : Nat) : Option (Nat × Nat × List Char) :=
  findGroup (cs.drop pos) pos

/-- Python slice `seq[a:b]` (for the nonnegative indices the source
produces). -/
def pySlice (cs : List Char) (a b : Nat) : List Char := (cs.take b).drop a

/-- Python slice `seq[a:]`. -/
def pySliceFrom (cs : List Char) (a : Nat) : List Char := cs.drop a

/-- The `while match:` loop of `parse_sequence_iupac_ambiguities`, with
the source's exact index arithmetic (`pos = match.end() + 1`, prefix
slices from `pos-1`, and the `pos < len(seq) - 1` re-search guard).
An unresolvable group's exception propagates. -/
def parse_seq_iupac_loopF : Nat → List Char → Nat → (Nat × Nat × List Char) →
    List Char → Except PyErr (List Char × Nat)
  | 0, _, _, _, _ => .error .fuelOut
  | fuel + 1, cs, pos, m, result =>
    let pre := if 0 < pos then pySlice cs (pos - 1) m.1 else pySlice cs pos m.1
    match map_to_iupac_ambiguity_code m.2.2 with
    | .error msg => .error (.exc msg)
    | .ok code =>
      let result := result ++ pre ++ [code]
      let pos := m.2.1 + 1
      if pos + 1 < cs.length then
        match reSearchGroup cs pos with
        | some m2 => parse_seq_iupac_loopF fuel cs pos m2 result
        | none => .ok (result, pos)
      else .ok (result, pos)

/-- `parse_sequence_iupac_ambiguities(seq)` on a string (the matrix parser
passes token strings): expand bracketed groups through
`map_to_iupac_ambiguity_code`; a sequence without a group is returned
unchanged. -/
def parse_sequence_iupac_ambiguities (seq : String) : Except PyErr String :=
  let cs := seq.toList
  match reSearchGroup cs 0 with
  | none => .ok seq
  | some m =>
    match parse_seq_iupac_loopF (cs.length + 2) cs 0 m [] with
    | .error e => .error e
    | .ok (result, pos) => .ok (String.mk (result ++ pySliceFrom cs (pos - 1)))

/-! ### parse_matrix_statement (nexus.py lines 835-877) -/

/-- Python truthiness of the file-specified dimension attributes: absent
(modelled from the spec as the base-class default) or zero are falsy. -/
def pyNatFalsy : Option Nat → Bool
  | none => true
  | some n => n = 0

/-- Row lookup `char_block[taxon]`. -/
def rowGet (cb : CharBlock) (taxon : String) : Option (List String) :=
  (cb.rows.find? (fun r => r.1 = taxon)).map Prod.snd

/-- Row update `char_block[taxon] = row`. -/
def rowSet (cb : CharBlock) (taxon : String) (row : List String) : CharBlock :=
  if cb.rows.any (fun r => r.1 = taxon) then
    { cb with rows := cb.rows.map (fun r => if r.1 = taxon then (taxon, row) else r) }
  else { cb with rows := cb.rows ++ [(taxon, row)] }

/-- The interleaved inner loop of `parse_matrix_statement`: raw characters
up to an end of line, skipping spaces and tabs, each mapped through the
symbol map when characters are included.  The loop does not test `eof`,
so at end of input (where the current character is the empty string) the
lookup raises `KeyError` when characters are included, and spins (fuel)
otherwise. -/
def matrix_interleave_loopF : Nat → List StateAlphElem → Bool → List String →
    TokState → Except PyErr (List String × TokState)
  | 0, _, _, _, _ => .error .fuelOut
  | fuel + 1, sa, include_chars, row, st =>
    let st := forceCur st
    if st.cur ≠ FChar.ch '\n' ∧ st.cur ≠ FChar.ch '\r' then
      match st.cur with
      | .ch c =>
        if (c = ' ' ∨ c = '\t') = false ∧ include_chars = true then
          match symbol_state_map sa c with
          | none => .error (.keyErr (String.mk [c]))
          | some state =>
            matrix_interleave_loopF fuel sa include_chars (row ++ [state])
              (read_next_char st)
        else matrix_interleave_loopF fuel sa include_chars row (read_next_char st)
      | _ =>
        if include_chars then .error (.keyErr "")
        else matrix_interleave_loopF fuel sa include_chars row (read_next_char st)
    else .ok (row, st)

/-- `for char in char_group:` of the sequential branch: map each character
to a state (`KeyError` when absent from the symbol map) and append. -/
def matrix_seq_chars (sa : List StateAlphElem) (row : List String) :
    List Char → Except PyErr (List String)
  | [] => .ok row
  | c :: rest =>
    match symbol_state_map sa c with
    | none => .error (.keyErr (String.mk [c]))
    | some state => matrix_seq_chars sa (row ++ [state]) rest

/-- The sequential inner loop of `parse_matrix_statement`: whitespace
delimited tokens, each expanded through
`parse_sequence_iupac_ambiguities`, until the row reaches the declared
character count or end of input.  A `None` token (end of input between
the guard and the read) hits the pattern search with a `TypeError`. -/
def matrix_sequential_loopF : Nat → List StateAlphElem → Bool → Nat →
    List String → TokState → Except PyErr (List String × TokState)
  | 0, _, _, _, _, _ => .error .fuelOut
  | fuel + 1, sa, include_chars, nchar, row, st =>
    if row.length < nchar ∧ st.eof = false then
      let st1 := read_next_token [] false st
      match st1.currentToken with
      | none => .error (.typeErr "expected string or buffer")
      | some grp =>
        if include_chars then
          match parse_sequence_iupac_ambiguities grp with
          | .error e => .error e
          | .ok expanded =>
            match matrix_seq_chars sa row expanded.toList with
            | .error e => .error e
            | .ok row2 => matrix_sequential_loopF fuel sa include_chars nchar row2 st1
        else matrix_sequential_loopF fuel sa include_chars nchar row st1
    else .ok (row, st)

/-- The outer `while token != ';' and not eof` row loop of
`parse_matrix_statement`: take the token as a taxon label (get-or-create
in the taxa block), ensure a row exists when characters are included, then
run the interleaved or sequential inner loop.  The sequential branch
evaluates `len(char_block[taxon])`, a `KeyError` when the row was never
created (characters not included). -/
def matrix_rows_loopF : Nat → RState → List StateAlphElem → CharBlock →
    List String → TokState → Except PyErr (CharBlock × List String × TokState)
  | 0, _, _, _, _, _ => .error .fuelOut
  | fuel + 1, rs, sa, cb, taxa, st =>
    if st.currentToken ≠ some ";" ∧ st.eof = false then
      match st.currentToken with
      | none => .error (.attrErr "NoneType object has no attribute count")
      | some t =>
        let taxon := parse_taxon_label t st.quoted
        let taxa := getTaxon taxa taxon
        let cb :=
          if (rowGet cb taxon).isNone ∧ rs.include_characters = true then
            rowSet cb taxon []
          else cb
        if rs.interleave then
          match matrix_interleave_loopF (st.stream.length + 4) sa
              rs.include_characters ((rowGet cb taxon).getD []) st with
          | .error e => .error e
          | .ok (row, st1) =>
            let cb := if rs.include_characters then rowSet cb taxon row else cb
            let st2 := read_next_token [] false st1
            matrix_rows_loopF fuel rs sa cb taxa st2
        else
          match rowGet cb taxon with
          | none => .error (.keyErr taxon)
          | some row =>
            match matrix_sequential_loopF (st.stream.length + 4) sa
                rs.include_characters (rs.file_specified_nchar.getD 0) row st with
            | .error e => .error e
            | .ok (row2, st1) =>
              let cb := rowSet cb taxon row2
              let st2 := read_next_token [] false st1
              matrix_rows_loopF fuel rs sa cb taxa st2
    else .ok (cb, taxa, st)

/-- `NexusReader.parse_matrix_statement()`: fatal syntax errors (at the
current line/column) when NTAX or NCHAR is not declared non-zero; else
build the character block (with the standard state alphabet built from the
current symbols, or the fixed class alphabet otherwise), read the matrix
rows, and add the block to the dataset.  (Python registers the mutable
block object in the dataset before reading the rows; since our error
channel discards the state, adding the completed block afterwards is
observationally the same on non-error runs.) -/
def parse_matrix_statement (rs : RState) (st : TokState) :
    Except PyErr (RState × TokState) :=
  let p := get_default_taxa_block rs
  let rs := p.1
  let taxa := p.2
  if pyNatFalsy rs.file_specified_ntax then
    .error (mkSynErr st
      "NTAX must be defined by DIMENSIONS command to non-zero value before MATRIX command")
  else if pyNatFalsy rs.file_specified_nchar then
    .error (mkSynErr st
      "NCHAR must be defined by DIMENSIONS command to non-zero value before MATRIX command")
  else
    let cb0 : CharBlock :=
      if rs.char_block_type = .standard then
        { kind := .standard,
          alphabet := build_state_alphabet rs.missing_char rs.symbols, rows := [] }
      else
        { kind := rs.char_block_type,
          alphabet := specFixedAlphabet rs.char_block_type, rows := [] }
    let st1 := read_next_token [] false st
    match matrix_rows_loopF (st.stream.length + 8) rs cb0.alphabet cb0 taxa st1 with
    | .error e => .error e
    | .ok (cb, taxa2, st2) =>
      let rs := setTaxaBlock rs taxa2
      let ds := { rs.dataset with charBlocks := rs.dataset.charBlocks ++ [cb] }
      .ok ({ rs with dataset := ds }, st2)

/-! ### parse_nexus_file (nexus.py lines 559-643) -/

/-- `NexusReader.consume_to_end_of_block(token)`: discard statements up to
`END`/`ENDBLOCK`, end of input, or a missing token. -/
def consume_to_end_of_blockF : Nat → Option String → TokState →
    Option String × TokState
  | 0, token, st => (token, st)
  | fuel + 1, token, st =>
    if (token = some "END" ∨ token = some "ENDBLOCK") = false ∧
        st.eof = false ∧ token ≠ none then
      let st1 := skip_to_semicolon st
      let q := read_next_token_ucase [] st1
      consume_to_end_of_blockF fuel q.2 q.1
    else (token, st)

/-- The `while token != None and token != 'BEGIN' and not eof` scan of the
main loop. -/
def find_begin_loopF : Nat → Option String → TokState → Option String × TokState
  | 0, token, st => (token, st)
  | fuel + 1, token, st =>
    if token ≠ none ∧ token ≠ some "BEGIN" ∧ st.eof = false then
      let q := read_next_token_ucase [] st
      find_begin_loopF fuel q.2 q.1
    else (token, st)

/-- The TAXA block statement loop: DIMENSIONS and TAXLABELS statements up
to `END`/`ENDBLOCK`. -/
def taxa_block_loopF : Nat → Option String → RState → TokState →
    Except PyErr (RState × TokState)
  | 0, _, _, _ => .error .fuelOut
  | fuel + 1, token, rs, st =>
    if (token = some "END" ∨ token = some "ENDBLOCK") = false ∧
        st.eof = false ∧ token ≠ none then
      let q := read_next_token_ucase [] st
      let token := q.2
      match (if token = some "DIMENSIONS" then parse_dimensions_statement rs q.1
             else .ok (rs, q.1)) with
      | .error e => .error e
      | .ok (rs, st1) =>
        match (if token = some "TAXLABELS" then parse_taxlabels_statement rs st1
               else .ok (rs, st1)) with
        | .error e => .error e
        | .ok (rs, st2) => taxa_block_loopF fuel token rs st2
    else .ok (rs, st)

/-- The CHARACTERS/DATA block statement loop: DIMENSIONS, FORMAT and
MATRIX statements up to `END`/`ENDBLOCK`. -/
def chars_block_loopF : Nat → Option String → RState → TokState →
    Except PyErr (RState × TokState)
  | 0, _, _, _ => .error .fuelOut
  | fuel + 1, token, rs, st =>
    if (token = some "END" ∨ token = some "ENDBLOCK") = false ∧
        st.eof = false ∧ token ≠ none then
      let q := read_next_token_ucase [] st
      let token := q.2
      match (if token = some "DIMENSIONS" then parse_dimensions_statement rs q.1
             else .ok (rs, q.1)) with
      | .error e => .error e
      | .ok (rs, st1) =>
        match (if token = some "FORMAT" then parse_format_statement rs st1
               else .ok (rs, st1)) with
        | .error e => .error e
        | .ok (rs, st2) =>
          match (if token = some "MATRIX" then parse_matrix_statement rs st2
                 else .ok (rs, st2)) with
          | .error e => .error e
          | .ok (rs, st3) => chars_block_loopF fuel token rs st3
    else .ok (rs, st)

/-- The TREES block statement loop: TRANSLATE and TREE statements up to
`END`/`ENDBLOCK`, collecting the parsed trees. -/
def trees_block_loopF : Nat → Option String → RState → List PTree → TokState →
    Except PyErr (RState × List PTree × TokState)
  | 0, _, _, _, _ => .error .fuelOut
  | fuel + 1, token, rs, trees, st =>
    if (token = some "END" ∨ token = some "ENDBLOCK") = false ∧
        st.eof = false ∧ token ≠ none then
      let q := read_next_token_ucase [] st
      let token := q.2
      match (if token = some "TRANSLATE" then parse_translate_statement rs q.1
             else .ok (rs, q.1)) with
      | .error e => .error e
      | .ok (rs, st1) =>
        if token = some "TREE" then
          let p := get_default_taxa_block rs
          match parse_tree_statement p.1 p.2 st1 with
          | .error e => .error e
          | .ok (tree, taxa, st2) =>
            trees_block_loopF fuel token (setTaxaBlock p.1 taxa)
              (trees ++ [tree]) st2
        else trees_block_loopF fuel token rs trees st1
    else .ok (rs, trees, st)

/-- Dispatch on a block name in `parse_nexus_file`: TAXA, CHARACTERS
(skipped entirely when characters are not included), DATA, TREES (skipped
when trees are not included), and unknown blocks are consumed.  (Python
registers the trees block in the dataset before filling it; adding the
completed block afterwards is observationally the same on non-error
runs.) -/
def parse_nexus_blockF (fuel : Nat) (token : Option String) (rs : RState)
    (st : TokState) : Except PyErr (RState × TokState) :=
  if token = some "TAXA" then
    let st := skip_to_semicolon st
    match taxa_block_loopF fuel token rs st with
    | .error e => .error e
    | .ok (rs, st) => .ok (rs, skip_to_semicolon st)
  else if token = some "CHARACTERS" then
    if rs.include_characters then
      let st := skip_to_semicolon st
      match chars_block_loopF fuel token rs st with
      | .error e => .error e
      | .ok (rs, st) => .ok (rs, skip_to_semicolon st)
    else
      let p := consume_to_end_of_blockF fuel token st
      .ok (rs, p.2)
  else if token = some "DATA" then
    let st := skip_to_semicolon st
    match chars_block_loopF fuel token rs st with
    | .error e => .error e
    | .ok (rs, st) => .ok (rs, skip_to_semicolon st)
  else if token = some "TREES" then
    if rs.include_trees then
      let p := get_default_taxa_block rs
      let st := skip_to_semicolon st
      match trees_block_loopF fuel token p.1 [] st with
      | .error e => .error e
      | .ok (rs, trees, st) =>
        let ds := { rs.dataset with treesBlocks := rs.dataset.treesBlocks ++ [trees] }
        .ok ({ rs with dataset := ds }, skip_to_semicolon st)
    else
      let p := consume_to_end_of_blockF fuel token st
      .ok (rs, p.2)
  else
    let p := consume_to_end_of_blockF fuel token st
    .ok (rs, p.2)

/-- The `while not eof` main loop of `parse_nexus_file`: scan to `BEGIN`,
read the block name, dispatch. -/
def parse_nexus_outer_loopF : Nat → RState → TokState →
    Except PyErr (RState × TokState)
  | 0, _, _ => .error .fuelOut
  | fuel + 1, rs, st =>
    if st.eof = false then
      let q := read_next_token_ucase [] st
      let p := find_begin_loopF (q.1.stream.length + 4) q.2 q.1
      let q2 := read_next_token_ucase [] p.2
      match parse_nexus_blockF fuel q2.2 rs q2.1 with
      | .error e => .error e
      | .ok (rs, st1) => parse_nexus_outer_loopF fuel rs st1
    else .ok (rs, st)

/-- `NexusReader.parse_nexus_file(dataset)` over a string source: `reset`,
the `#NEXUS` header check (a syntax error naming the offending token
otherwise), then the main block loop; returns the populated dataset. -/
def parse_nexus_file (dataset : Option Dataset) (s : String) :
    Except PyErr Dataset :=
  let rs := nexus_reader_reset initialRState
  let rs := match dataset with
    | some d => { rs with dataset := d }
    | none => rs
  let st := mkTokState s
  let q := read_next_token_ucase [] st
  if q.2 ≠ some "#NEXUS" then
    .error (mkSynErr q.1 ("Expecting \"#NEXUS\", but found \"" ++ pyStr q.2 ++ "\""))
  else
    match parse_nexus_outer_loopF (st.stream.length + 8) rs q.1 with
    | .error e => .error e
    | .ok (rs, _) => .ok rs.dataset

/-! ### Edge-length well-formedness (claims C2 and C10) -/

/-- What `parse_newick_node_stream` can store in `node.edge.length`:
nothing, a float from a token `float` accepts, or the literal token kept
when `float` raises `ValueError`. -/
def wfElen : EdgeLen → Prop
  | .absent => True
  | .flt s => pyFloatParses s = true
  | .lit s => pyFloatParses s = false

mutual

/-- All edge lengths in a subtree are well-formed. -/
def wfElensN : PNode → Prop
  | .node _ e _ _ kids => wfElen e ∧ wfElensL kids

/-- All edge lengths in a forest are well-formed. -/
def wfElensL : List PNode → Prop
  | [] => True
  | c :: cs => wfElensN c ∧ wfElensL cs

end

/-- The seed node's edge length is never a parsed float: absent or the
literal token string. -/
def seedElenRaw : EdgeLen → Prop
  | .flt _ => False
  | _ => True

theorem wfElensL_append {l : List PNode} {c : PNode} :
    wfElensL (l ++ [c]) ↔ wfElensL l ∧ wfElensN c := by
  induction l with
  | nil => simp [wfElensL]
  | cons a as ih => simp [wfElensL, ih, and_assoc]

theorem wfElensN_setLabel {n : PNode} {l : Option String} :
    wfElensN (n.setLabel l) ↔ wfElensN n := by
  cases n; simp [PNode.setLabel, wfElensN]

theorem wfElensN_addChild {n c : PNode} :
    wfElensN (n.addChild c) ↔ wfElensN n ∧ wfElensN c := by
  cases n; simp [PNode.addChild, wfElensN, wfElensL_append, and_assoc]

theorem wfElensN_newNode : wfElensN newNode := by
  simp [newNode, wfElensN, wfElensL, wfElen]

theorem wfElensN_foldl {kids : List PNode} {n : PNode} :
    wfElensN n → wfElensL kids → wfElensN (kids.foldl PNode.addChild n) := by
  induction kids generalizing n with
  | nil => intro h _; exact h
  | cons c cs ih =>
    intro hn hl
    exact ih (wfElensN_addChild.mpr ⟨hn, hl.1⟩) hl.2

theorem elen_setLabel {n : PNode} {l : Option String} :
    (n.setLabel l).elen = n.elen := by
  cases n; rfl

theorem elen_addChild {n c : PNode} : (n.addChild c).elen = n.elen := by
  cases n; rfl

theorem elen_foldl {kids : List PNode} {n : PNode} :
    (kids.foldl PNode.addChild n).elen = n.elen := by
  induction kids generalizing n with
  | nil => rfl
  | cons c cs ih => rw [List.foldl_cons, ih, elen_addChild]

theorem children_setLabel {n : PNode} {l : Option String} :
    (n.setLabel l).children = n.children := by
  cases n; rfl

theorem children_foldl {kids : List PNode} {n : PNode} :
    (kids.foldl PNode.addChild n).children = n.children ++ kids := by
  induction kids generalizing n with
  | nil => simp
  | cons c cs ih =>
    cases n
    rw [List.foldl_cons, ih]
    simp [PNode.addChild, PNode.children]

mutual

theorem resolve_wf_N (tr : List (String × String)) (taxa : List String) :
    (n : PNode) → wfElensN n → wfElensN (resolveLeavesN tr taxa n).1
  | .node l e t o [], h => by
    simp only [resolveLeavesN]
    split
    · exact h
    · exact h
  | .node l e t o (c :: cs), h => by
    simp only [resolveLeavesN]
    exact ⟨h.1, resolve_wf_L tr taxa (c :: cs) h.2⟩

theorem resolve_wf_L (tr : List (String × String)) (taxa : List String) :
    (l : List PNode) → wfElensL l → wfElensL (resolveLeavesL tr taxa l).1
  | [], _ => trivial
  | c :: cs, h => by
    simp only [resolveLeavesL]
    exact ⟨resolve_wf_N tr taxa c h.1,
      resolve_wf_L tr (resolveLeavesN tr taxa c).2 cs h.2⟩

end

theorem resolve_elen (tr : List (String × String)) (taxa : List String)
    (n : PNode) : (resolveLeavesN tr taxa n).1.elen = n.elen := by
  cases n with
  | node l e t o kids =>
    cases kids with
    | nil =>
      simp only [resolveLeavesN]
      split <;> rfl
    | cons c cs => rfl

theorem resolve_children_wf (tr : List (String × String)) (taxa : List String)
    (n : PNode) (h : wfElensL n.children) :
    wfElensL (resolveLeavesN tr taxa n).1.children := by
  cases n with
  | node l e t o kids =>
    cases kids with
    | nil =>
      simp only [resolveLeavesN]
      split <;> exact h
    | cons c cs =>
      simp only [resolveLeavesN, PNode.children]
      exact resolve_wf_L tr taxa (c :: cs) h

/-- The single `TypeError` the NEWICK node parser can raise: `float(None)`
when the source ends right after an edge-length colon. -/
def lenTypeErr : PyErr := .typeErr "float() argument must be a string or a number"

theorem wfElen_store (ls : String) :
    wfElen (if pyFloatParses ls then EdgeLen.flt ls else EdgeLen.lit ls) := by
  by_cases h : pyFloatParses ls = true
  · simp [h, wfElen]
  · simp only [Bool.not_eq_true] at h
    simp [h, wfElen]

theorem wfElensN_setElen {n : PNode} {e : EdgeLen} :
    wfElensN (n.setElen e) ↔ wfElen e ∧ wfElensL n.children := by
  cases n; simp [PNode.setElen, wfElensN, PNode.children]

theorem wfElensN_children {n : PNode} : wfElensN n → wfElensL n.children := by
  cases n; exact fun h => h.2

/-- Invariant of the node-parser family, by induction on fuel: every node
an `ok` result returns has well-formed edge lengths throughout (given the
accumulating node does), and the only errors are the `float(None)`
`TypeError` and fuel exhaustion. -/
theorem parse_node_inv (fuel : Nat) :
    (∀ st n st2, parse_newick_node_streamF fuel st = .ok (n, st2) → wfElensN n) ∧
    (∀ st e, parse_newick_node_streamF fuel st = .error e →
      e = lenTypeErr ∨ e = .fuelOut) ∧
    (∀ token node st n st2, parse_node_loopF fuel token node st = .ok (n, st2) →
      wfElensN node → wfElensN n) ∧
    (∀ token node st e, parse_node_loopF fuel token node st = .error e →
      e = lenTypeErr ∨ e = .fuelOut) ∧
    (∀ token node st n st2 t2,
      parse_node_childrenF fuel token node st = .ok (n, st2, t2) →
      wfElensN node → wfElensN n) ∧
    (∀ token node st e, parse_node_childrenF fuel token node st = .error e →
      e = lenTypeErr ∨ e = .fuelOut) := by
  induction fuel with
  | zero =>
    refine ⟨?_, ?_, ?_, ?_, ?_, ?_⟩
    · intro st n st2 h; cases h
    · intro st e h; injection h with h; exact Or.inr h.symm
    · intro token node st n st2 h; cases h
    · intro token node st e h; injection h with h; exact Or.inr h.symm
    · intro token node st n st2 t2 h; cases h
    · intro token node st e h; injection h with h; exact Or.inr h.symm
  | succ f ih =>
    obtain ⟨ihSok, ihSerr, ihLok, ihLerr, ihCok, ihCerr⟩ := ih
    refine ⟨?_, ?_, ?_, ?_, ?_, ?_⟩
    · intro st n st2 h
      simp only [parse_newick_node_streamF] at h
      exact ihLok _ _ _ _ _ h wfElensN_newNode
    · intro st e h
      simp only [parse_newick_node_streamF] at h
      exact ihLerr _ _ _ _ h
    · intro token node st n st2 h hwf
      simp only [parse_node_loopF] at h
      split at h
      case isTrue hc =>
        set s := token.getD "" with hs
        have hwf1 : wfElensN (if s = "." ∨ strInPunct s = false then
            match node.label with
            | none => node.setLabel (some (parse_taxon_label s st.quoted))
            | some l => node.setLabel (some (l ++ parse_taxon_label s st.quoted))
            else node) := by
          split
          · split <;> exact wfElensN_setLabel.mpr hwf
          · exact hwf
        set node1 := (if s = "." ∨ strInPunct s = false then
            match node.label with
            | none => node.setLabel (some (parse_taxon_label s st.quoted))
            | some l => node.setLabel (some (l ++ parse_taxon_label s st.quoted))
            else node) with hnode1
        split at h
        · -- s = ":"
          split at h
          · cases h
          case h_2 ls hls =>
            exact ihLok _ _ _ _ _ h
              (wfElensN_setElen.mpr ⟨wfElen_store ls, wfElensN_children hwf1⟩)
        · split at h
          · -- s = "("
            split at h
            · cases h
            case h_2 node2 st1 t1 heq =>
              exact ihLok _ _ _ _ _ h (ihCok _ _ _ _ _ _ heq hwf1)
          · exact ihLok _ _ _ _ _ h hwf1
      case isFalse hc =>
        cases h
        exact hwf
    · intro token node st e h
      simp only [parse_node_loopF] at h
      split at h
      · split at h
        · split at h
          · cases h; exact Or.inl rfl
          · exact ihLerr _ _ _ _ h
        · split at h
          · split at h
            case h_1 e1 heq => cases h; exact ihCerr _ _ _ _ heq
            case h_2 => exact ihLerr _ _ _ _ h
          · exact ihLerr _ _ _ _ h
      · cases h
    · intro token node st n st2 t2 h hwf
      simp only [parse_node_childrenF] at h
      split at h
      · split at h
        · cases h
        case h_2 child st1 heq =>
          exact ihCok _ _ _ _ _ _ h
            (wfElensN_addChild.mpr ⟨hwf, ihSok _ _ _ heq⟩)
      · cases h
        exact hwf
    · intro token node st e h
      simp only [parse_node_childrenF] at h
      split at h
      · split at h
        case h_1 e1 heq => cases h; exact ihSerr _ _ heq
        case h_2 => exact ihCerr _ _ _ _ h
      · cases h

/-- Invariant of the tree statement loop: collected subtrees have
well-formed edge lengths; errors are the `float(None)` `TypeError` or fuel
exhaustion. -/
theorem parse_tree_loop_inv (fuel : Nat) :
    (∀ token kids st t2 kids2 st2,
      parse_tree_loopF fuel token kids st = .ok (t2, kids2, st2) →
      wfElensL kids → wfElensL kids2) ∧
    (∀ token kids st e, parse_tree_loopF fuel token kids st = .error e →
      e = lenTypeErr ∨ e = .fuelOut) := by
  induction fuel with
  | zero =>
    refine ⟨?_, ?_⟩
    · intro token kids st t2 kids2 st2 h; cases h
    · intro token kids st e h; injection h with h; exact Or.inr h.symm
  | succ f ih =>
    refine ⟨?_, ?_⟩
    · intro token kids st t2 kids2 st2 h hwf
      simp only [parse_tree_loopF] at h
      split at h
      · split at h
        · cases h
        case h_2 nd st1 heq =>
          have hnd := (parse_node_inv f).1 _ _ _ heq
          have hkids : wfElensL (kids ++ [nd]) := wfElensL_append.mpr ⟨hwf, hnd⟩
          split at h
          · split at h
            · cases h; exact hkids
            · exact ih.1 _ _ _ _ _ _ h hkids
          · exact ih.1 _ _ _ _ _ _ h hkids
      · cases h; exact hwf
    · intro token kids st e h
      simp only [parse_tree_loopF] at h
      split at h
      · split at h
        case h_1 e1 heq => cases h; exact (parse_node_inv f).2.1 _ _ heq
        case h_2 nd st1 heq =>
          split at h
          · split at h
            · cases h
            · exact ih.2 _ _ _ _ h
          · exact ih.2 _ _ _ _ h
      · cases h

/-- `parse_tree_finish` returns a tree whose seed edge length is raw
(absent or a literal string, never a parsed float) and whose subtrees have
well-formed edge lengths. -/
theorem parse_tree_finish_inv (tr : List (String × String))
    (taxa : List String) (token : Option String) (kids : List PNode)
    (st : TokState) (hwf : wfElensL kids) :
    seedElenRaw (parse_tree_finish tr taxa token kids st).1.seed.elen ∧
    wfElensL (parse_tree_finish tr taxa token kids st).1.seed.children := by
  have hseedWf : wfElensL (kids.foldl PNode.addChild newNode).children := by
    rw [children_foldl]
    simpa [newNode, PNode.children] using hwf
  have hseedE : (kids.foldl PNode.addChild newNode).elen = .absent := by
    rw [elen_foldl]; rfl
  have hstep1E : ∀ seed token st1, seedElenRaw seed.elen →
      seedElenRaw (tree_root_label_step seed token st1).1.elen := by
    intro seed token st1 h
    unfold tree_root_label_step
    split
    · rw [elen_setLabel]; exact h
    · exact h
  have hstep1C : ∀ seed token st1, wfElensL seed.children →
      wfElensL (tree_root_label_step seed token st1).1.children := by
    intro seed token st1 h
    unfold tree_root_label_step
    split
    · rw [children_setLabel]; exact h
    · exact h
  have hstep2E : ∀ seed token st1, seedElenRaw seed.elen →
      seedElenRaw (tree_root_length_step seed token st1).1.elen := by
    intro seed token st1 h
    unfold tree_root_length_step
    split
    · dsimp only
      split
      · exact h
      · cases seed; simp [PNode.setElen, PNode.elen, seedElenRaw]
    · exact h
  have hstep2C : ∀ seed token st1, wfElensL seed.children →
      wfElensL (tree_root_length_step seed token st1).1.children := by
    intro seed token st1 h
    unfold tree_root_length_step
    split
    · dsimp only
      split
      · exact h
      · cases seed; simpa [PNode.setElen, PNode.children] using h
    · exact h
  unfold parse_tree_finish
  constructor
  · rw [resolve_elen]
    apply hstep2E
    apply hstep1E
    rw [hseedE]; trivial
  · apply resolve_children_wf
    apply hstep2C
    apply hstep1C
    exact hseedWf

/-- Invariant of `parse_newick_tree_stream`: a parsed tree has a raw seed
edge length and well-formed lengths below; errors are classified. -/
theorem parse_stream_inv (fuel : Nat) (taxa0 : Option (List String))
    (tr : List (String × String)) (st : TokState) :
    (∀ t st2, parse_newick_tree_streamF fuel taxa0 tr st = .ok (some t, st2) →
      seedElenRaw t.seed.elen ∧ wfElensL t.seed.children) ∧
    (∀ e, parse_newick_tree_streamF fuel taxa0 tr st = .error e →
      e = lenTypeErr ∨ e = .fuelOut) := by
  constructor
  · intro t st2 h
    simp only [parse_newick_tree_streamF] at h
    split at h
    · cases h
    · split at h
      · cases h
      case h_2 token kids st1 heq =>
        have hkids := (parse_tree_loop_inv fuel).1 _ _ _ _ _ _ heq trivial
        injection h with h1
        injection h1 with h1 h2
        injection h1 with h1
        rw [← h1]
        exact parse_tree_finish_inv _ _ _ _ _ hkids
  · intro e h
    simp only [parse_newick_tree_streamF] at h
    split at h
    · cases h
    · split at h
      case h_1 e1 heq => cases h; exact (parse_tree_loop_inv fuel).2 _ _ _ _ heq
      case h_2 => cases h

/-- `parse_newick_tree_stream` returns `None` exactly when the first token
read is falsy (absent at end of input, or the empty string), and then with
the tokenizer state just after that read. -/
theorem parse_stream_none_iff (fuel : Nat) (taxa0 : Option (List String))
    (tr : List (String × String)) (st : TokState) :
    (∀ r st2, parse_newick_tree_streamF fuel taxa0 tr st = .ok (r, st2) →
      (r = none ↔
        tokTruthy (read_next_token [] false st).currentToken = false)) ∧
    (∀ e', parse_newick_tree_streamF fuel taxa0 tr st = .error e' →
      tokTruthy (read_next_token [] false st).currentToken = true) := by
  constructor
  · intro r st2 h
    simp only [parse_newick_tree_streamF] at h
    split at h
    case isTrue hc =>
      injection h with h1
      injection h1 with h1 h2
      rw [← h1]
      simp [hc]
    case isFalse hc =>
      split at h
      · cases h
      · injection h with h1
        injection h1 with h1 h2
        rw [← h1]
        simp only [Bool.not_eq_false] at hc
        simp [hc]
  · intro e' h
    simp only [parse_newick_tree_streamF] at h
    split at h
    · cases h
    case isFalse hc =>
      simpa using hc

/-- Error classification for the `read_trees` loop. -/
theorem read_trees_loop_err (fuel : Nat) :
    ∀ acc taxa st e, read_trees_loopF fuel acc taxa st = .error e →
      e = lenTypeErr ∨ e = .fuelOut := by
  induction fuel with
  | zero =>
    intro acc taxa st e h
    injection h with h
    exact Or.inr h.symm
  | succ f ih =>
    intro acc taxa st e h
    simp only [read_trees_loopF] at h
    split at h
    case h_1 e1 heq => cases h; exact (parse_stream_inv _ _ _ _).2 _ heq
    case h_2 => cases h
    case h_3 tree st1 heq => exact ih _ _ _ _ h

/-- Seed edge length of the tree parsed from a string (`absent` when no
tree results). -/
def parsedSeedElen (s : String) : EdgeLen :=
  match parse_newick_string s with
  | .ok (some t, _) => t.seed.elen
  | _ => .absent

/-- Whether `parse_newick_string` returns `None` for this input. -/
def parsedIsNone (s : String) : Bool :=
  match parse_newick_string s with
  | .ok (none, _) => true
  | _ => false

/-- Whether the tokenizer is at end of input after `parse_newick_string`
returns (vacuously true when it raises). -/
def parsedStateEof (s : String) : Bool :=
  match parse_newick_string s with
  | .ok (_, st) => st.eof
  | _ => true

/-- C2 counterexample: on the statement `(A,B):5;` the seed node's edge
length is stored as the literal token string `5` even though `float("5")`
succeeds — the claim says every stored edge length at the root is the
parsed float when parsing succeeds, but `parse_newick_tree_stream` line
266 assigns the raw token with no conversion. -/
theorem c2_counterexample :
    parsedSeedElen "(A,B):5;" = .lit "5" ∧ pyFloatParses "5" = true :=
  ⟨rfl, rfl⟩

/-- C2 (amended): for every node below the seed, the token following `:`
is float-parsed with the literal string kept on `ValueError` (so a stored
float always comes from a parseable token and a stored literal from an
unparseable one); the seed node's edge length, however, is never a parsed
float: when present it is the literal token string, whatever it is. -/
theorem c2_edge_lengths (s : String) (t : PTree) (st2 : TokState)
    (h : parse_newick_string s = .ok (some t, st2)) :
    seedElenRaw t.seed.elen ∧ wfElensL t.seed.children := by
  unfold parse_newick_string at h
  exact (parse_stream_inv _ _ _ _).1 _ _ h

/-- Parsed tree of the C2 witness statement. -/
def c2WitTree : PTree :=
  match parse_newick_string "(A:1.5,B:xx):7;" with
  | .ok (some t, _) => t
  | _ => { seed := newNode, taxa := [], label := none }

/-- Tokenizer state after parsing the C2 witness statement. -/
def c2WitState : TokState :=
  match parse_newick_string "(A:1.5,B:xx):7;" with
  | .ok (_, st) => st
  | _ => mkTokState ""

/-- Witness for `c2_edge_lengths` at `(A:1.5,B:xx):7;` (seed length is
the literal `7`, the leaf lengths are the float `1.5` and the literal
`xx`). -/
theorem c2_edge_lengths_witness :
    (seedElenRaw c2WitTree.seed.elen ∧ wfElensL c2WitTree.seed.children) ∧
    c2WitTree.seed.elen = .lit "7" := by
  refine ⟨c2_edge_lengths "(A:1.5,B:xx):7;" c2WitTree c2WitState ?_, rfl⟩
  rfl

/-- C10 counterexample: `parse_newick_tree_stream` does not always return
a tree when the first token is truthy — on the statement `(A:` the length
token after `:` is `None` and `float(None)` raises a `TypeError`; and it
returns `None` without the source being exhausted when the first token is
an empty quoted token. -/
theorem c10_counterexample :
    parse_newick_string "(A:" = .error lenTypeErr ∧
    parsedIsNone (String.mk [squote, squote, ';', '(', 'A', ')', ';']) = true ∧
    parsedStateEof (String.mk [squote, squote, ';', '(', 'A', ')', ';']) = false :=
  ⟨rfl, rfl, rfl⟩

/-- C10 (amended): `parse_newick_tree_stream` returns `None` if and only
if the first token read is falsy — `None` at end of the source, or an
empty (quoted) token, which can occur with the source not exhausted;
otherwise it returns a Tree or raises, the only raise being the
`float(None)` `TypeError` when the source ends right after an edge-length
colon (`fuelOut` is the embedding's fuel marker, not a Python outcome).
`NewickReader.read_trees`, called without a taxa block, parses the first
statement and then unconditionally runs `taxa_block = tree.taxa_block`
(line 1043), so a first `None` — even from an empty source — raises an
`AttributeError`; after a first tree the loop stops at the first `None`,
and the only errors `read_trees` can raise are that `AttributeError` and
the same `float(None)` `TypeError`. -/
theorem c10_parse_none_behavior (s : String) :
    (parsedIsNone s = true ↔
      tokTruthy (read_next_token [] false (mkTokState s)).currentToken = false) ∧
    (∀ e, parse_newick_string s = .error e → e = lenTypeErr ∨ e = .fuelOut) ∧
    (∀ e, newick_read_trees s = .error e → e = lenTypeErr ∨ e = .fuelOut ∨
      e = .attrErr "NoneType object has no attribute taxa_block") ∧
    (parsedIsNone s = true →
      newick_read_trees s =
        .error (.attrErr "NoneType object has no attribute taxa_block")) := by
  refine ⟨?_, ?_, ?_, ?_⟩
  · unfold parsedIsNone
    constructor
    · intro h
      split at h
      case h_1 st2 heq =>
        exact ((parse_stream_none_iff _ _ _ _).1 _ _ heq).mp rfl
      case h_2 heq => cases h
    · intro h
      split
      · rfl
      case h_2 r hne =>
        unfold parse_newick_string at hne
        match hr : parse_newick_tree_streamF (fuelFor (mkTokState s)) none [] (mkTokState s) with
        | .ok (none, st2) => exact (hne st2 hr).elim
        | .ok (some t, st2) =>
          have := ((parse_stream_none_iff _ _ _ _).1 _ _ hr).mpr h
          cases this
        | .error e' =>
          have := (parse_stream_none_iff _ _ _ _).2 _ hr
          rw [h] at this
          cases this
  · intro e h
    unfold parse_newick_string at h
    exact (parse_stream_inv _ _ _ _).2 _ h
  · intro e h
    simp only [newick_read_trees] at h
    split at h
    case h_1 e1 heq =>
      injection h with h
      subst h
      rcases (parse_stream_inv _ _ _ _).2 _ heq with h1 | h1
      · exact Or.inl h1
      · exact Or.inr (Or.inl h1)
    case h_2 =>
      injection h with h
      exact Or.inr (Or.inr h.symm)
    case h_3 tree st1 heq =>
      rcases read_trees_loop_err _ _ _ _ _ h with h1 | h1
      · exact Or.inl h1
      · exact Or.inr (Or.inl h1)
  · intro hnone
    simp only [parsedIsNone, parse_newick_string] at hnone
    simp only [newick_read_trees]
    split at hnone
    case h_1 st2 heq => rw [heq]
    case h_2 => cases hnone

/-- Witness for `c10_parse_none_behavior`: the empty source gives `None`
(and its first token is falsy), `read_trees` on it raises the
`taxa_block` `AttributeError`, and `(A:` raises the `float(None)`
`TypeError`. -/
theorem c10_parse_none_behavior_witness :
    parsedIsNone "" = true ∧
    newick_read_trees "" =
      .error (.attrErr "NoneType object has no attribute taxa_block") ∧
    (lenTypeErr = lenTypeErr ∨ lenTypeErr = PyErr.fuelOut) := by
  refine ⟨(c10_parse_none_behavior "").1.mpr (by rfl), ?_, ?_⟩
  · exact (c10_parse_none_behavior "").2.2.2
      ((c10_parse_none_behavior "").1.mpr (by rfl))
  · exact (c10_parse_none_behavior "(A:").2.1 lenTypeErr (by rfl)

/-! ### Claims C4, C9, C8 on parse_format_statement -/

/-- The C4 counterexample's error message: what `parse_format_statement`
raises on a MATCHCHAR sub-statement lacking its `=`. -/
def c4CexMsg : String :=
  match parse_format_statement initialRState (mkTokState "MATCHCHAR X;") with
  | .error (.synErr _ _ m) => m
  | _ => ""

/-- C4 counterexample: a MATCHCHAR keyword not followed by `=` raises a
syntax error whose message names MISSING — not MATCHCHAR (nexus.py line
722, a copy of the MISSING branch's message). -/
theorem c4_counterexample :
    c4CexMsg = "Expecting \"=\" after MISSING keyword" ∧
    strInStr "MATCHCHAR" c4CexMsg = false :=
  ⟨rfl, rfl⟩

/-- C4 (amended): in `parse_format_statement`, the keywords DATATYPE,
SYMBOLS, GAP and MISSING each raise, when the following token is not `=`,
a syntax error whose message names that keyword; MATCHCHAR also raises,
but its message names MISSING. -/
theorem c4_format_eq_errors (fuel : Nat) (rs : RState) (st : TokState) :
    ((read_next_token_ucase [] st).2 ≠ some "=" →
      (parse_format_loopF (fuel + 1) (some "DATATYPE") rs st =
        .error (mkSynErr (read_next_token_ucase [] st).1
          "Expecting \"=\" after DATATYPE keyword") ∧
      parse_format_loopF (fuel + 1) (some "SYMBOLS") rs st =
        .error (mkSynErr (read_next_token_ucase [] st).1
          "Expecting \"=\" after SYMBOLS keyword") ∧
      parse_format_loopF (fuel + 1) (some "GAP") rs st =
        .error (mkSynErr (read_next_token_ucase [] st).1
          "Expecting \"=\" after GAP keyword") ∧
      parse_format_loopF (fuel + 1) (some "MISSING") rs st =
        .error (mkSynErr (read_next_token_ucase [] st).1
          "Expecting \"=\" after MISSING keyword") ∧
      parse_format_loopF (fuel + 1) (some "MATCHCHAR") rs st =
        .error (mkSynErr (read_next_token_ucase [] st).1
          "Expecting \"=\" after MISSING keyword"))) := by
  intro hne
  refine ⟨?_, ?_, ?_, ?_, ?_⟩ <;> simp [parse_format_loopF, hne]

/-- Witness for `c4_format_eq_errors` on the state positioned at `X;`
(the token after the keyword is X, not `=`). -/
theorem c4_format_eq_errors_witness :
    parse_format_loopF 4 (some "MATCHCHAR") initialRState (mkTokState "X;") =
      .error (mkSynErr (read_next_token_ucase [] (mkTokState "X;")).1
        "Expecting \"=\" after MISSING keyword") :=
  (c4_format_eq_errors 3 initialRState (mkTokState "X;") (by decide)).2.2.2.2

/-- The else branch of the DATATYPE dispatch: any value other than DNA,
NUCLEOTIDES, RNA and PROTEIN (including STANDARD, an absent token, or any
unknown word) selects the standard block type with symbols `12` and the
loop continues with no error. -/
theorem format_datatype_else (fuel : Nat) (rs : RState) (st : TokState)
    (h1 : (read_next_token_ucase [] st).2 = some "=")
    (hv1 : (read_next_token_ucase [] (read_next_token_ucase [] st).1).2 ≠ some "DNA")
    (hv2 : (read_next_token_ucase [] (read_next_token_ucase [] st).1).2 ≠ some "NUCLEOTIDES")
    (hv3 : (read_next_token_ucase [] (read_next_token_ucase [] st).1).2 ≠ some "RNA")
    (hv4 : (read_next_token_ucase [] (read_next_token_ucase [] st).1).2 ≠ some "PROTEIN") :
    parse_format_loopF (fuel + 1) (some "DATATYPE") rs st =
      parse_format_loopF fuel
        (read_next_token_ucase []
          (read_next_token_ucase [] (read_next_token_ucase [] st).1).1).2
        { rs with char_block_type := .standard, symbols := "12" }
        (read_next_token_ucase []
          (read_next_token_ucase [] (read_next_token_ucase [] st).1).1).1 := by
  simp [parse_format_loopF, h1, hv1, hv2, hv3, hv4]

/-- C9: a FORMAT DATATYPE value other than DNA, NUCLEOTIDES, RNA and
PROTEIN raises no error and is treated exactly like STANDARD: the standard
block type is selected, the symbol list becomes `12`, and the statement
loop continues. -/
theorem c9_unknown_datatype (fuel : Nat) (rs : RState) (st : TokState)
    (h1 : (read_next_token_ucase [] st).2 = some "=")
    (hv1 : (read_next_token_ucase [] (read_next_token_ucase [] st).1).2 ≠ some "DNA")
    (hv2 : (read_next_token_ucase [] (read_next_token_ucase [] st).1).2 ≠ some "NUCLEOTIDES")
    (hv3 : (read_next_token_ucase [] (read_next_token_ucase [] st).1).2 ≠ some "RNA")
    (hv4 : (read_next_token_ucase [] (read_next_token_ucase [] st).1).2 ≠ some "PROTEIN") :
    parse_format_loopF (fuel + 1) (some "DATATYPE") rs st =
      parse_format_loopF fuel
        (read_next_token_ucase []
          (read_next_token_ucase [] (read_next_token_ucase [] st).1).1).2
        { rs with char_block_type := .standard, symbols := "12" }
        (read_next_token_ucase []
          (read_next_token_ucase [] (read_next_token_ucase [] st).1).1).1 :=
  format_datatype_else fuel rs st h1 hv1 hv2 hv3 hv4

/-- End-to-end outcome of a `DATATYPE=FOO;` FORMAT statement. -/
def c9Result : CharKind × String :=
  match parse_format_statement initialRState (mkTokState "DATATYPE=FOO;") with
  | .ok (rs, _) => (rs.char_block_type, rs.symbols)
  | .error _ => (.dna, "ERR")

/-- Witness for `c9_unknown_datatype` on the value FOO, together with the
end-to-end outcome of `FORMAT DATATYPE=FOO;`: no error, standard block
type, symbols 12. -/
theorem c9_unknown_datatype_witness :
    (parse_format_loopF 7 (some "DATATYPE") initialRState (mkTokState "=FOO;") =
      parse_format_loopF 6
        (read_next_token_ucase []
          (read_next_token_ucase []
            (read_next_token_ucase [] (mkTokState "=FOO;")).1).1).2
        { initialRState with char_block_type := .standard, symbols := "12" }
        (read_next_token_ucase []
          (read_next_token_ucase []
            (read_next_token_ucase [] (mkTokState "=FOO;")).1).1).1) ∧
    c9Result = (.standard, "12") :=
  ⟨c9_unknown_datatype 6 initialRState (mkTokState "=FOO;")
    (by rfl) (by decide) (by decide) (by decide) (by decide), rfl⟩

/-! ### Claim C3 on parse_matrix_statement, claim C8 on the default
alphabet, claim C7 on parse_tree_statement -/

/-- C3: reaching MATRIX while NTAX is undeclared or zero raises a fatal
syntax error carrying the tokenizer's current line and column, and
likewise for NCHAR when NTAX is fine; in both cases the statement returns
by raising, so no character block is constructed or added to the
dataset. -/
theorem c3_matrix_requires_dimensions (rs : RState) (st : TokState) :
    (pyNatFalsy rs.file_specified_ntax = true →
      parse_matrix_statement rs st =
        .error (.synErr st.line st.col
          "NTAX must be defined by DIMENSIONS command to non-zero value before MATRIX command")) ∧
    (pyNatFalsy rs.file_specified_ntax = false →
      pyNatFalsy rs.file_specified_nchar = true →
      parse_matrix_statement rs st =
        .error (.synErr st.line st.col
          "NCHAR must be defined by DIMENSIONS command to non-zero value before MATRIX command")) := by
  constructor
  · intro h
    unfold parse_matrix_statement get_default_taxa_block
    cases rs.dataset.taxaBlocks <;> simp [h, mkSynErr]
  · intro h1 h2
    unfold parse_matrix_statement get_default_taxa_block
    cases rs.dataset.taxaBlocks <;> simp [h1, h2, mkSynErr]

/-- Witness for `c3_matrix_requires_dimensions`: the freshly reset reader
(no DIMENSIONS seen) raises on MATRIX, and so does the full document
`#NEXUS BEGIN DATA; MATRIX A 11; END;`. -/
theorem c3_matrix_requires_dimensions_witness :
    parse_matrix_statement initialRState (mkTokState "A 11;") =
      .error (.synErr 1 1
        "NTAX must be defined by DIMENSIONS command to non-zero value before MATRIX command") ∧
    parse_nexus_file none "#NEXUS BEGIN DATA; MATRIX A 11; END;" =
      .error (.synErr 1 27
        "NTAX must be defined by DIMENSIONS command to non-zero value before MATRIX command") :=
  ⟨(c3_matrix_requires_dimensions initialRState (mkTokState "A 11;")).1 (by rfl),
   by rfl⟩

/-- The fundamental (non-ambiguous) symbols of the character block built
by a DATA block that declares no FORMAT/DATATYPE at all. -/
def c8NoFormatSyms : List String :=
  match parse_nexus_file none
      "#NEXUS BEGIN DATA; DIMENSIONS NTAX=1 NCHAR=2; MATRIX A 12; END;" with
  | .ok ds =>
    match ds.charBlocks with
    | [cb] => (cb.alphabet.filter (fun e => e.ambiguous = false)).map
        (fun e => e.symbol)
    | _ => []
  | .error _ => []

/-- C8 counterexample: with no DATATYPE given the constructed standard
block's fundamental symbols are 0, 1 and 2 (the `reset` default
`symbols = "012"`), not the two symbols 1 and 2 the claim states. -/
theorem c8_counterexample :
    c8NoFormatSyms = ["0", "1", "2"] ∧ c8NoFormatSyms ≠ ["1", "2"] := by
  refine ⟨rfl, ?_⟩
  rw [show c8NoFormatSyms = ["0", "1", "2"] from rfl]
  decide

/-- C8 (amended): the `reset` default symbol list is `012`, so a matrix
reached with no DATATYPE gets a standard block over the three fundamental
symbols 0, 1, 2 (plus the ambiguous missing state covering them all);
an explicit `DATATYPE=STANDARD` (like any unrecognized value) resets the
symbol list to `12`, giving the two fundamental symbols 1, 2 plus the
missing state. -/
theorem c8_standard_alphabet :
    (initialRState.symbols = "012" ∧
     build_state_alphabet (some "?") "012" =
       [⟨"0", false, []⟩, ⟨"1", false, []⟩, ⟨"2", false, []⟩,
        ⟨"?", true, ["0", "1", "2"]⟩]) ∧
    (∀ fuel rs st,
      (read_next_token_ucase [] st).2 = some "=" →
      (read_next_token_ucase [] (read_next_token_ucase [] st).1).2 = some "STANDARD" →
      parse_format_loopF (fuel + 1) (some "DATATYPE") rs st =
        parse_format_loopF fuel
          (read_next_token_ucase []
            (read_next_token_ucase [] (read_next_token_ucase [] st).1).1).2
          { rs with char_block_type := .standard, symbols := "12" }
          (read_next_token_ucase []
            (read_next_token_ucase [] (read_next_token_ucase [] st).1).1).1) ∧
    build_state_alphabet (some "?") "12" =
      [⟨"1", false, []⟩, ⟨"2", false, []⟩, ⟨"?", true, ["1", "2"]⟩] := by
  refine ⟨⟨rfl, rfl⟩, ?_, rfl⟩
  intro fuel rs st h1 hv
  exact format_datatype_else fuel rs st h1
    (by rw [hv]; decide) (by rw [hv]; decide) (by rw [hv]; decide)
    (by rw [hv]; decide)

/-- Symbols of the char block of `FORMAT DATATYPE=STANDARD` end to end. -/
def c8StdSyms : List String :=
  match parse_nexus_file none
      "#NEXUS BEGIN DATA; DIMENSIONS NTAX=1 NCHAR=2; FORMAT DATATYPE=STANDARD; MATRIX A 12; END;" with
  | .ok ds =>
    match ds.charBlocks with
    | [cb] => (cb.alphabet.filter (fun e => e.ambiguous = false)).map
        (fun e => e.symbol)
    | _ => []
  | .error _ => []

/-- Witness for `c8_standard_alphabet`: the DATATYPE=STANDARD clause on a
concrete state, and the end-to-end symbols of a STANDARD document. -/
theorem c8_standard_alphabet_witness :
    (parse_format_loopF 8 (some "DATATYPE") initialRState
        (mkTokState "=STANDARD;") =
      parse_format_loopF 7
        (read_next_token_ucase []
          (read_next_token_ucase []
            (read_next_token_ucase [] (mkTokState "=STANDARD;")).1).1).2
        { initialRState with char_block_type := .standard, symbols := "12" }
        (read_next_token_ucase []
          (read_next_token_ucase []
            (read_next_token_ucase [] (mkTokState "=STANDARD;")).1).1).1) ∧
    c8StdSyms = ["1", "2"] :=
  ⟨c8_standard_alphabet.2.1 7 initialRState (mkTokState "=STANDARD;")
    (by rfl) (by rfl), rfl⟩

/-- The error message of `NexusReader` on the claim C7 example input
(which lacks the `#NEXUS` header). -/
def c7CexMsg : String :=
  match parse_nexus_file none "BEGIN TREES; TREE t1 Homo;" with
  | .error (.synErr _ _ m) => m
  | _ => ""

/-- C7 counterexample: on the exact input `BEGIN TREES; TREE t1 Homo;`
the NEXUS parser raises at the missing `#NEXUS` header; the error does
not name tree t1 (and the NEWICK fallback reader would not raise at
all). -/
theorem c7_counterexample :
    c7CexMsg = "Expecting \"#NEXUS\", but found \"BEGIN\"" ∧
    strInStr "t1" c7CexMsg = false :=
  ⟨rfl, rfl⟩

/-- C3/C7 example document: the C7 example with its `#NEXUS` header. -/
def c7Doc : String := "#NEXUS BEGIN TREES; TREE t1 Homo;"

/-- C7 (amended): a TREE statement consumes an optional leading `*`, then
a tree name; if the next token is not `=`, a syntax error is raised whose
message quotes that tree name; when parsing succeeds the tree's label is
the tree name.  The example input must carry the `#NEXUS` header to reach
the TREES block: `#NEXUS BEGIN TREES; TREE t1 Homo;` raises the syntax
error naming t1, while the headerless original raises at the header
check. -/
theorem c7_tree_statement (rs : RState) (taxa : List String) (st : TokState) :
    ((read_next_token [] false
        (if (read_next_token [] false st).currentToken = some "*" then
          read_next_token [] false (read_next_token [] false st)
        else read_next_token [] false st)).currentToken ≠ some "=" →
      parse_tree_statement rs taxa st =
        .error (mkSynErr
          (read_next_token [] false
            (if (read_next_token [] false st).currentToken = some "*" then
              read_next_token [] false (read_next_token [] false st)
            else read_next_token [] false st))
          ("Expecting \"=\" in definition of Tree \"" ++
            pyStr (if (read_next_token [] false st).currentToken = some "*" then
              read_next_token [] false (read_next_token [] false st)
            else read_next_token [] false st).currentToken ++
            "\" but found \"" ++
            pyStr (read_next_token [] false
              (if (read_next_token [] false st).currentToken = some "*" then
                read_next_token [] false (read_next_token [] false st)
              else read_next_token [] false st)).currentToken ++ "\""))) ∧
    (∀ tree taxa2 st5, parse_tree_statement rs taxa st = .ok (tree, taxa2, st5) →
      tree.label =
        (if (read_next_token [] false st).currentToken = some "*" then
          read_next_token [] false (read_next_token [] false st)
        else read_next_token [] false st).currentToken) ∧
    parse_nexus_file none c7Doc =
      .error (.synErr 1 34
        "Expecting \"=\" in definition of Tree \"t1\" but found \"Homo\"") := by
  refine ⟨?_, ?_, by rfl⟩
  · intro hne
    unfold parse_tree_statement
    rw [if_pos hne]
  · intro tree taxa2 st5 h
    have heq : parse_tree_statement rs taxa st =
        (if (read_next_token [] false
            (if (read_next_token [] false st).currentToken = some "*" then
              read_next_token [] false (read_next_token [] false st)
            else read_next_token [] false st)).currentToken ≠ some "=" then
          Except.error (mkSynErr
            (read_next_token [] false
              (if (read_next_token [] false st).currentToken = some "*" then
                read_next_token [] false (read_next_token [] false st)
              else read_next_token [] false st))
            ("Expecting \"=\" in definition of Tree \"" ++
              pyStr (if (read_next_token [] false st).currentToken = some "*" then
                read_next_token [] false (read_next_token [] false st)
              else read_next_token [] false st).currentToken ++
              "\" but found \"" ++
              pyStr (read_next_token [] false
                (if (read_next_token [] false st).currentToken = some "*" then
                  read_next_token [] false (read_next_token [] false st)
                else read_next_token [] false st)).currentToken ++ "\""))
        else
          match parse_newick_tree_streamF
              (fuelFor (read_next_token [] false
                (if (read_next_token [] false st).currentToken = some "*" then
                  read_next_token [] false (read_next_token [] false st)
                else read_next_token [] false st)))
              (some taxa) rs.tree_translate
              (read_next_token [] false
                (if (read_next_token [] false st).currentToken = some "*" then
                  read_next_token [] false (read_next_token [] false st)
                else read_next_token [] false st)) with
          | .error e => .error e
          | .ok (none, _) =>
            .error (.attrErr "NoneType object has no attribute label")
          | .ok (some tree1, st4) =>
            .ok ({ seed := tree1.seed, taxa := tree1.taxa,
                   label := (if (read_next_token [] false st).currentToken = some "*" then
                     read_next_token [] false (read_next_token [] false st)
                   else read_next_token [] false st).currentToken },
              tree1.taxa,
              if st4.currentToken ≠ some ";" then skip_to_semicolon st4 else st4)) := rfl
    rw [heq] at h
    by_cases hc : (read_next_token [] false
        (if (read_next_token [] false st).currentToken = some "*" then
          read_next_token [] false (read_next_token [] false st)
        else read_next_token [] false st)).currentToken = some "="
    · rw [if_neg (not_not_intro hc)] at h
      split at h
      · cases h
      · cases h
      · injection h with h1
        injection h1 with h1
        rw [← h1]
    · rw [if_pos hc] at h
      cases h

/-- Witness for `c7_tree_statement`: the missing-`=` branch on the
statement `t1 Homo;` and the label assignment on `t1 = (A,B);`. -/
theorem c7_tree_statement_witness :
    parse_tree_statement initialRState [] (mkTokState "t1 Homo;") =
      .error (mkSynErr
        (read_next_token [] false
          (if (read_next_token [] false (mkTokState "t1 Homo;")).currentToken = some "*" then
            read_next_token [] false (read_next_token [] false (mkTokState "t1 Homo;"))
          else read_next_token [] false (mkTokState "t1 Homo;")))
        ("Expecting \"=\" in definition of Tree \"" ++
          pyStr (if (read_next_token [] false (mkTokState "t1 Homo;")).currentToken = some "*" then
            read_next_token [] false (read_next_token [] false (mkTokState "t1 Homo;"))
          else read_next_token [] false (mkTokState "t1 Homo;")).currentToken ++
          "\" but found \"" ++
          pyStr (read_next_token [] false
            (if (read_next_token [] false (mkTokState "t1 Homo;")).currentToken = some "*" then
              read_next_token [] false (read_next_token [] false (mkTokState "t1 Homo;"))
            else read_next_token [] false (mkTokState "t1 Homo;"))).currentToken ++ "\"")) ∧
    (match parse_tree_statement initialRState [] (mkTokState "t1 = (A,B);") with
      | .ok (tree, _, _) => tree.label
      | _ => none) = some "t1" := by
  exact ⟨(c7_tree_statement initialRState [] (mkTokState "t1 Homo;")).1 (by decide),
    by rfl⟩

/-! ### Claim C1: NEWICK round trip

The round-trip theorem is proved for trees whose labels are "safe" words:
nonempty, without whitespace, punctuation or underscores (the
counterexample shows quoted underscore labels break the round trip), with
absent edge lengths and unresolved taxa — exactly the shape
`parse_newick_string` produces before leaf resolution. -/

/-- A character that survives the round trip inside an unquoted label:
not whitespace, not punctuation, not an underscore. -/
def safeChar (c : Char) : Bool :=
  !(isWsChar c) && !(isPunctChar c) && !(c = '_')

/-- A safe label: nonempty and all characters safe. -/
def goodWordL (w : List Char) : Bool :=
  !(w = []) && w.all safeChar

/-- A safe label as a string. -/
def goodWordS (s : String) : Bool := goodWordL s.toList

mutual

/-- Round-trippable subtree: leaves carry safe labels, internal nodes
carry no label or a safe one, all edge lengths absent, taxa unresolved,
object ids empty (as the parser constructs them). -/
def goodN : PNode → Bool
  | .node lbl el tx oid [] =>
    (match lbl with | some s => goodWordS s | none => false) &&
    (el = EdgeLen.absent) && (tx = none) && (oid = "")
  | .node lbl el tx oid (c :: cs) =>
    (match lbl with | some s => goodWordS s | none => true) &&
    (el = EdgeLen.absent) && (tx = none) && (oid = "") && goodL (c :: cs)

/-- Round-trippable forest. -/
def goodL : List PNode → Bool
  | [] => true
  | c :: cs => goodN c && goodL cs

end

/-- Position of the tokenizer in the remaining input: either everything is
consumed (`eof` set) or the lookahead holds the next character and the
stream the rest. -/
def PosT (st : TokState) (cs : List Char) : Prop :=
  match cs with
  | [] => st.eof = true
  | c :: rest => st.eof = false ∧ st.cur = FChar.ch c ∧ st.stream = rest

theorem rnc_PosT {st : TokState} {rest : List Char}
    (h : st.stream = rest) (he : st.eof = false) :
    PosT (read_next_char st) rest := by
  cases rest with
  | nil => simp [read_next_char, h, PosT]
  | cons c r => simp [read_next_char, h, PosT, he]

/-- A loaded significant character makes `skip_to_significantF` a no-op
at any fuel. -/
theorem skip_nofire {st : TokState} {c : Char} (hcur : st.cur = FChar.ch c)
    (hws : isWsChar c = false) (hbr : c ≠ '[') :
    ∀ fuel, skip_to_significantF fuel st = st := by
  intro fuel
  cases fuel with
  | zero => rfl
  | succ f =>
    have hfc : forceCur st = st := by simp [forceCur, hcur]
    simp only [skip_to_significantF, hfc]
    rw [if_neg]
    intro hcon
    obtain ⟨h1, _⟩ := hcon
    rw [hcur] at h1
    simp [isWsF, hws] at h1
    exact hbr h1

/-- The same, for the fuel-wrapped entry point. -/
theorem skip_sig_nofire {st : TokState} {c : Char} (hcur : st.cur = FChar.ch c)
    (hws : isWsChar c = false) (hbr : c ≠ '[') :
    skip_to_significant_character st = st :=
  skip_nofire hcur hws hbr _

/-- Skipping from the fresh-state position: the first character is pulled
into the lookahead and, being significant, stops the skip. -/
theorem skip_sig_mk {s : String} {c : Char} {rest : List Char}
    (h : s.toList = c :: rest) (hws : isWsChar c = false) (hbr : c ≠ '[') :
    skip_to_significant_character (mkTokState s) =
      { stream := rest, cur := .ch c, eof := false, prev := none,
        line := 1, col := 2, currentToken := none, quoted := false } := by
  have hdata : s.data = c :: rest := h
  have hfc : forceCur (mkTokState s) =
      { stream := rest, cur := .ch c, eof := false, prev := none,
        line := 1, col := 2, currentToken := none, quoted := false } := by
    simp [forceCur, mkTokState, read_next_char, String.toList, hdata]
  unfold skip_to_significant_character
  have hlen : 2 * (mkTokState s).stream.length + 4 =
      (2 * (mkTokState s).stream.length + 3) + 1 := by omega
  rw [hlen]
  simp only [skip_to_significantF]
  rw [hfc]
  rw [if_neg]
  intro hcon
  obtain ⟨h1, _⟩ := hcon
  simp [isWsF, hws] at h1
  exact hbr h1

theorem safeChar_not_ws {a : Char} (h : safeChar a = true) : isWsChar a = false := by
  simp [safeChar] at h; exact h.1.1

theorem safeChar_not_punct {a : Char} (h : safeChar a = true) :
    isPunctChar a = false := by
  simp [safeChar] at h; exact h.1.2

theorem safeChar_not_usc {a : Char} (h : safeChar a = true) : a ≠ '_' := by
  simp [safeChar] at h; exact h.2

theorem safeChar_not_squote {a : Char} (h : safeChar a = true) : a ≠ squote := by
  intro he
  rw [he] at h
  have := safeChar_not_punct h
  simp [isPunctChar, punctuationChars] at this

/-- End of input: `read_next_token` records no current token. -/
theorem read_tok_eof {st0 : TokState} (h : st0.eof = true) :
    read_next_token [] false st0 = { st0 with currentToken := none } := by
  unfold read_next_token
  rw [if_neg (by rw [h]; simp)]

/-- Reading a loaded punctuation token: the token is that character and
the lookahead advances past it. -/
theorem read_punct_tok (st0 st : TokState) (p : Char)
    (hs0 : st0.eof = false) (hskip : skip_to_significant_character st0 = st)
    (heof : st.eof = false) (hcur : st.cur = .ch p)
    (hp : isPunctChar p = true) (hq : p ≠ squote) :
    read_next_token [] false st0 =
      { read_next_char st with
        currentToken := some (String.mk [p]),
        quoted := false } := by
  unfold read_next_token
  rw [if_pos (by rw [hs0])]
  rw [hskip]
  rw [if_pos (by rw [heof])]
  rw [if_neg (by rw [hcur]; intro hcon; exact hq (FChar.ch.inj hcon))]
  rw [if_pos (And.intro (by rw [hcur]; simpa [isPunctF] using hp)
    (by rw [hcur]; simp [inIgnoreF]))]
  rw [show st.cur = FChar.ch p from hcur]

/-- The word-accumulation loop on a safe word followed by a terminating
whitespace-or-punctuation character. -/
theorem word_loop (w : List Char) : ∀ fuel acc (st : TokState) (d : Char)
    (rest : List Char), w.all safeChar = true → w.length + 1 ≤ fuel →
    PosT st (w ++ d :: rest) → isWsPunctF (.ch d) = true →
    ∃ st1, read_word_tokenF fuel [] acc st = (acc ++ w, st1) ∧
      st1.eof = false ∧ st1.cur = .ch d ∧ st1.stream = rest := by
  induction w with
  | nil =>
    intro fuel acc st d rest _ hfuel hpos hd
    obtain ⟨he, hc, hs⟩ := hpos
    match fuel, hfuel with
    | f + 1, _ =>
      refine ⟨st, ?_, he, hc, hs⟩
      simp only [read_word_tokenF]
      rw [if_neg]
      · simp
      · rw [hc]
        simp [hd, inIgnoreF]
  | cons a w' ih =>
    intro fuel acc st d rest hsafe hfuel hpos hd
    obtain ⟨he, hc, hs⟩ := hpos
    simp only [List.all_cons, Bool.and_eq_true] at hsafe
    match fuel, hfuel with
    | f + 1, hfuel =>
      simp only [read_word_tokenF]
      rw [if_pos]
      · rw [hc]
        dsimp only
        have hpos2 : PosT (read_next_char st) (w' ++ d :: rest) :=
          rnc_PosT (by rw [hs]; simp) he
        obtain ⟨st1, hrun, h1, h2, h3⟩ :=
          ih f (acc ++ [a]) (read_next_char st) d rest hsafe.2
            (by simp only [List.length_cons] at hfuel; omega) hpos2 hd
        refine ⟨st1, ?_, h1, h2, h3⟩
        rw [hrun]
        simp
      · refine ⟨he, Or.inl ?_⟩
        rw [hc]
        simp [isWsPunctF, isWsF, isPunctF, safeChar_not_ws hsafe.1,
          safeChar_not_punct hsafe.1]

/-- Reading a loaded safe word token followed by a terminator: the token
is the word and the lookahead stops on the terminator. -/
theorem read_word_tok (st0 st : TokState) (a : Char) (w' : List Char)
    (d : Char) (rest : List Char)
    (hs0 : st0.eof = false) (hskip : skip_to_significant_character st0 = st)
    (heof : st.eof = false) (hcur : st.cur = .ch a)
    (hstream : st.stream = w' ++ d :: rest)
    (hsafe : (a :: w').all safeChar = true) (hd : isWsPunctF (.ch d) = true) :
    ∃ st1, read_next_token [] false st0 = st1 ∧
      st1.currentToken = some (String.mk (a :: w')) ∧ st1.quoted = false ∧
      st1.eof = false ∧ st1.cur = .ch d ∧ st1.stream = rest := by
  have hsa : safeChar a = true := by
    simp only [List.all_cons, Bool.and_eq_true] at hsafe
    exact hsafe.1
  have hnsq : ¬(st.cur = FChar.ch squote) := by
    rw [hcur]
    intro hcon
    exact safeChar_not_squote hsa (FChar.ch.inj hcon)
  have hnp : ¬(isPunctF st.cur = true ∧ inIgnoreF st.cur [] = false) := by
    rw [hcur]
    simp [isPunctF, safeChar_not_punct hsa]
  unfold read_next_token
  rw [if_pos (by rw [hs0])]
  rw [hskip]
  rw [if_pos (by rw [heof])]
  rw [if_neg hnsq]
  rw [if_neg hnp]
  have hpos : PosT st ((a :: w') ++ d :: rest) := ⟨heof, hcur, by simpa using hstream⟩
  obtain ⟨st1, hrun, h1, h2, h3⟩ :=
    word_loop (a :: w') (st.stream.length + 2) [] st d rest hsafe
      (by rw [hstream]
          simp only [List.length_cons, List.length_append]
          omega) hpos hd
  dsimp only
  rw [hrun]
  refine ⟨_, rfl, ?_, rfl, ?_, ?_, ?_⟩ <;> simp [h1, h2, h3]

theorem string_mk_toList (s : String) : String.mk s.toList = s := rfl

theorem toList_string_mk (l : List Char) : (String.mk l).toList = l := rfl

theorem singleton_infix_of_mem {p : Char} {l : List Char} (h : p ∈ l) :
    [p] <:+: l := by
  induction l with
  | nil => cases h
  | cons a as ih =>
    rcases List.mem_cons.mp h with h | h
    · exact ⟨[], as, by rw [h]; rfl⟩
    · exact (ih h).trans (List.infix_cons (List.infix_refl as))

theorem strInPunct_single {p : Char} (hp : isPunctChar p = true) :
    strInPunct (String.mk [p]) = true := by
  simp only [strInPunct, toList_string_mk, decide_eq_true_eq]
  exact singleton_infix_of_mem (by simpa [isPunctChar] using hp)

theorem strInPunct_good {s : String} (h : goodWordS s = true) :
    strInPunct s = false := by
  simp only [goodWordS, goodWordL, Bool.and_eq_true, decide_eq_true_eq,
    Bool.not_eq_true', decide_eq_false_iff_not] at h
  obtain ⟨hne, hall⟩ := h
  simp only [strInPunct, decide_eq_false_iff_not]
  intro hinf
  match hs : s.toList, hne with
  | a :: w', _ =>
    have ha : a ∈ punctuationChars := hinf.subset (by rw [hs]; simp)
    rw [hs] at hall
    have hsa := List.all_eq_true.mp hall a (by simp)
    have hnp : isPunctChar a = false := safeChar_not_punct hsa
    exact absurd ha (by simpa [isPunctChar] using hnp)

theorem good_ne_punct_str {s : String} (h : goodWordS s = true) {p : Char}
    (hp : isPunctChar p = true) : s ≠ String.mk [p] := by
  intro he
  rw [he] at h
  simp only [goodWordS, goodWordL, toList_string_mk, List.all_cons,
    Bool.and_eq_true] at h
  exact absurd hp (by rw [(safeChar_not_punct h.2.1 : isPunctChar p = false)]; simp)

theorem good_truthy {s : String} (h : goodWordS s = true) :
    tokTruthy (some s) = true := by
  simp only [goodWordS, goodWordL, Bool.and_eq_true, Bool.not_eq_true',
    decide_eq_false_iff_not] at h
  simp only [tokTruthy, Bool.not_eq_true', decide_eq_false_iff_not]
  intro he
  exact h.1 (by rw [he]; rfl)

theorem parse_taxon_label_good {s : String} (h : goodWordS s = true) :
    parse_taxon_label s false = s := by
  unfold parse_taxon_label
  rw [if_neg]
  intro hcon
  obtain ⟨-, hcnt⟩ := hcon
  simp only [goodWordS, goodWordL, Bool.and_eq_true] at h
  have : '_' ∈ s.toList := List.count_pos_iff.mp hcnt
  have := List.all_eq_true.mp h.2 _ this
  exact absurd rfl (safeChar_not_usc this)

theorem safeChar_not_lbracket {a : Char} (h : safeChar a = true) : a ≠ '[' := by
  intro he
  rw [he] at h
  have := safeChar_not_punct h
  simp [isPunctChar, punctuationChars] at this

/-- Punctuation-token read from a loaded position, packaged with the
resulting position. -/
theorem read_punct_tok2 (st0 : TokState) (p : Char) (rest : List Char)
    (heof : st0.eof = false) (hcur : st0.cur = .ch p) (hstream : st0.stream = rest)
    (hp : isPunctChar p = true) (hq : p ≠ squote) (hbr : p ≠ '[')
    (hws : isWsChar p = false) :
    ∃ st1, read_next_token [] false st0 = st1 ∧
      st1.currentToken = some (String.mk [p]) ∧ st1.quoted = false ∧
      PosT st1 rest := by
  rw [read_punct_tok st0 st0 p heof (skip_sig_nofire hcur hws hbr) heof hcur hp hq]
  refine ⟨_, rfl, rfl, rfl, ?_⟩
  have h2 := rnc_PosT hstream heof
  cases rest <;> simpa [PosT] using h2

/-- Safe-word-token read from a loaded position, packaged with the
resulting position. -/
theorem read_word_tok2 (st0 : TokState) (a : Char) (w' : List Char)
    (d : Char) (rest : List Char)
    (heof : st0.eof = false) (hcur : st0.cur = .ch a)
    (hstream : st0.stream = w' ++ d :: rest)
    (hsafe : (a :: w').all safeChar = true) (hd : isWsPunctF (.ch d) = true) :
    ∃ st1, read_next_token [] false st0 = st1 ∧
      st1.currentToken = some (String.mk (a :: w')) ∧ st1.quoted = false ∧
      PosT st1 (d :: rest) := by
  have hsa : safeChar a = true := by
    simp only [List.all_cons, Bool.and_eq_true] at hsafe
    exact hsafe.1
  obtain ⟨st1, hrun, h1, h2, h3, h4, h5⟩ :=
    read_word_tok st0 st0 a w' d rest heof
      (skip_sig_nofire hcur (safeChar_not_ws hsa) (safeChar_not_lbracket hsa))
      heof hcur hstream hsafe hd
  exact ⟨st1, hrun, h1, h2, h3, h4, h5⟩

/-- The seed of `parse_newick_tree_stream` before labelling: attaching a
child list to a fresh node. -/
theorem foldl_newNode (kids : List PNode) :
    kids.foldl PNode.addChild newNode = .node none .absent none "" kids := by
  have hgen : ∀ (ks : List PNode) (l : Option String) (e : EdgeLen)
      (t : Option String) (o : String) (c0 : List PNode),
      ks.foldl PNode.addChild (.node l e t o c0) = .node l e t o (c0 ++ ks) := by
    intro ks
    induction ks with
    | nil => intro l e t o c0; simp
    | cons k ks ih =>
      intro l e t o c0
      simp only [List.foldl_cons, PNode.addChild]
      rw [ih]
      simp
  simpa [newNode] using hgen kids none .absent none "" []

mutual

/-- Fuel bound for the node parser of a round-trippable subtree. -/
def nfN : PNode → Nat
  | .node _ _ _ _ [] => 3
  | .node _ _ _ _ (c :: cs) => 3 + nfL (c :: cs)

/-- Fuel bound for the children loop of a round-trippable forest. -/
def nfL : List PNode → Nat
  | [] => 1
  | c :: cs => 1 + nfN c + nfL cs

end

/-- The characters of the comma-joined compositions of a forest. -/
def composeBody : List PNode → List Char
  | [] => []
  | [c] => (compose_node c).toList
  | c :: cs => (compose_node c).toList ++ ',' :: composeBody cs

theorem nw_compose_taxlabel_good {s : String} (h : goodWordS s = true) :
    nw_compose_taxlabel s = s := by
  unfold nw_compose_taxlabel
  rw [if_neg]
  simp only [goodWordS, goodWordL, Bool.and_eq_true] at h
  intro hcon
  obtain ⟨c, hc, hnq⟩ := List.any_eq_true.mp hcon
  have hs := List.all_eq_true.mp h.2 c hc
  simp only [needsQuoteChar, Bool.or_eq_true] at hnq
  rcases hnq with hq | hq
  · rw [safeChar_not_ws hs] at hq; cases hq
  · rw [safeChar_not_punct hs] at hq; cases hq

theorem toList_append (s t : String) : (s ++ t).toList = s.toList ++ t.toList := by
  simp [String.toList]

/-- A good leaf composes to its bare label. -/
theorem compose_leaf {w : String} (h : goodWordS w = true) :
    compose_node (.node (some w) .absent none "" []) = w := by
  simp [compose_node, choose_display_tag, PNode.taxon, PNode.label,
    good_truthy h, nw_compose_taxlabel_good h, elenSuffix]

/-- The joined child compositions at the character level. -/
theorem composeBody_eq : ∀ l : List PNode,
    (compose_join (compose_list l)).toList = composeBody l
  | [] => rfl
  | [c] => by simp [compose_list, compose_join, composeBody]
  | c :: c2 :: cs => by
    simp only [compose_list, compose_join, composeBody, toList_append]
    rw [show compose_node c2 :: compose_list cs = compose_list (c2 :: cs)
      from rfl]
    rw [composeBody_eq (c2 :: cs)]
    simp [composeBody]

/-- The composition of an unlabelled internal node, at the character
level. -/
theorem compose_internal_none (c : PNode) (cs : List PNode) :
    (compose_node (.node none .absent none "" (c :: cs))).toList =
      '(' :: (composeBody (c :: cs) ++ [')']) := by
  simp only [compose_node, choose_display_tag, PNode.taxon, PNode.label,
    PNode.oid, PNode.children, tokTruthy, elenSuffix, toList_append,
    composeBody_eq]
  simp

/-- The composition of a labelled internal node with a safe label, at the
character level. -/
theorem compose_internal_some {w : String} (h : goodWordS w = true)
    (c : PNode) (cs : List PNode) :
    (compose_node (.node (some w) .absent none "" (c :: cs))).toList =
      '(' :: (composeBody (c :: cs) ++ ')' :: w.toList) := by
  simp only [compose_node, choose_display_tag, PNode.taxon, PNode.label,
    PNode.oid, PNode.children, good_truthy h, if_pos, Option.getD_some,
    nw_compose_taxlabel_good h, elenSuffix, toList_append, composeBody_eq]
  simp

theorem good_ne_rparen {s : String} (h : goodWordS s = true) : s ≠ ")" :=
  fun he => good_ne_punct_str h (show isPunctChar ')' = true by decide)
    (he.trans (by decide))

theorem good_ne_comma {s : String} (h : goodWordS s = true) : s ≠ "," :=
  fun he => good_ne_punct_str h (show isPunctChar ',' = true by decide)
    (he.trans (by decide))

theorem good_ne_semi {s : String} (h : goodWordS s = true) : s ≠ ";" :=
  fun he => good_ne_punct_str h (show isPunctChar ';' = true by decide)
    (he.trans (by decide))

theorem good_ne_colon {s : String} (h : goodWordS s = true) : s ≠ ":" :=
  fun he => good_ne_punct_str h (show isPunctChar ':' = true by decide)
    (he.trans (by decide))

theorem good_ne_lparen {s : String} (h : goodWordS s = true) : s ≠ "(" :=
  fun he => good_ne_punct_str h (show isPunctChar '(' = true by decide)
    (he.trans (by decide))

/-- The three characters a child composition can stop at are significant
punctuation suitable for the single-character token read. -/
theorem stop_char_facts {d : Char} (hd : d = ')' ∨ d = ',' ∨ d = ';') :
    isPunctChar d = true ∧ d ≠ squote ∧ d ≠ '[' ∧ isWsChar d = false ∧
      isWsPunctF (.ch d) = true := by
  rcases hd with h | h | h <;> subst h <;>
    exact ⟨by decide, by decide, by decide, by decide, by decide⟩

/-- A stop-character token ends the node loop. -/
theorem stop_tok_fail {d : Char} (hd : d = ')' ∨ d = ',' ∨ d = ';') :
    ¬(tokTruthy (some (String.mk [d])) = true ∧ some (String.mk [d]) ≠ some ")" ∧
      some (String.mk [d]) ≠ some "," ∧ some (String.mk [d]) ≠ some ";") := by
  rcases hd with h | h | h <;> subst h <;> intro hcon
  · exact hcon.2.1 (by decide)
  · exact hcon.2.2.1 (by decide)
  · exact hcon.2.2.2 (by decide)

/-- One unrolling of `parse_newick_node_stream`: read a token and enter the
loop on a fresh node. -/
theorem stream_unfold (f : Nat) (st : TokState) :
    parse_newick_node_streamF (f + 1) st =
      parse_node_loopF f (read_next_token [] false st).currentToken newNode
        (read_next_token [] false st) := rfl

/-- The node loop at a falsy or closing token returns the node unchanged. -/
theorem loop_stop (f : Nat) (tok : Option String) (node : PNode) (st : TokState)
    (h : ¬(tokTruthy tok = true ∧ tok ≠ some ")" ∧ tok ≠ some "," ∧
      tok ≠ some ";")) :
    parse_node_loopF (f + 1) tok node st = .ok (node, st) := by
  simp only [parse_node_loopF]
  rw [if_neg h]

/-- The node loop at a safe-word token on an unlabelled node: label the
node, read the next token, continue. -/
theorem loop_word_step (f : Nat) (s : String) (node : PNode) (st : TokState)
    (hs : goodWordS s = true) (hlbl : node.label = none)
    (hq : st.quoted = false) :
    parse_node_loopF (f + 1) (some s) node st =
      parse_node_loopF f (read_next_token [] false st).currentToken
        (node.setLabel (some s)) (read_next_token [] false st) := by
  simp only [parse_node_loopF, Option.getD_some]
  rw [if_pos ⟨good_truthy hs, by simpa using good_ne_rparen hs,
    by simpa using good_ne_comma hs, by simpa using good_ne_semi hs⟩]
  rw [if_pos (Or.inr (strInPunct_good hs))]
  simp only [hlbl]
  rw [if_neg (good_ne_colon hs), if_neg (good_ne_lparen hs), hq,
    parse_taxon_label_good hs]

/-- The node loop at an open parenthesis, given the run of the inner
children loop: continue with the collected node. -/
theorem loop_lparen_step (f : Nat) (tok2 : Option String) (node nd : PNode)
    (st st1 : TokState)
    (hc : parse_node_childrenF f (some "(") node st = .ok (nd, st1, tok2)) :
    parse_node_loopF (f + 1) (some "(") node st =
      parse_node_loopF f (read_next_token [] false st1).currentToken nd
        (read_next_token [] false st1) := by
  simp only [parse_node_loopF, Option.getD_some]
  rw [if_pos ⟨by decide, by decide, by decide, by decide⟩]
  rw [if_neg (by decide : ¬("(" = "." ∨ strInPunct "(" = false))]
  rw [if_neg (by decide : ¬("(" = ":"))]
  rw [if_pos trivial]
  rw [hc]

/-- One step of the children loop at a non-closing truthy token, given the
run of the recursive node parse. -/
theorem children_step (f : Nat) (tok : Option String) (node child : PNode)
    (st st1 : TokState) (ht : tokTruthy tok = true) (hne : tok ≠ some ")")
    (hs : parse_newick_node_streamF f st = .ok (child, st1)) :
    parse_node_childrenF (f + 1) tok node st =
      parse_node_childrenF f st1.currentToken (node.addChild child) st1 := by
  simp only [parse_node_childrenF]
  rw [if_pos ⟨ht, hne⟩, hs]

/-- The children loop stops at a close parenthesis. -/
theorem children_stop (f : Nat) (node : PNode) (st : TokState) :
    parse_node_childrenF (f + 1) (some ")") node st =
      .ok (node, st, some ")") := by
  simp only [parse_node_childrenF]
  rw [if_neg]
  intro h
  exact h.2 rfl

/-- Punctuation-token read from the fresh tokenizer state. -/
theorem read_punct_tok_mk {s : String} {p : Char} {rest : List Char}
    (h : s.toList = p :: rest) (hp : isPunctChar p = true) (hq : p ≠ squote)
    (hbr : p ≠ '[') (hws : isWsChar p = false) :
    ∃ st1, read_next_token [] false (mkTokState s) = st1 ∧
      st1.currentToken = some (String.mk [p]) ∧ st1.quoted = false ∧
      PosT st1 rest := by
  rw [read_punct_tok (mkTokState s) _ p rfl (skip_sig_mk h hws hbr) rfl rfl hp hq]
  refine ⟨_, rfl, rfl, rfl, ?_⟩
  have h2 : PosT (read_next_char {
      stream := rest, cur := FChar.ch p, eof := false, prev := none, line := 1, col := 2, currentToken := none, quoted := false }) rest :=
    rnc_PosT rfl rfl
  cases rest <;> simpa [PosT] using h2

mutual

/-- Round trip at the node level: parsing the composition of a good
subtree followed by a stop character reproduces the subtree exactly, with
the stop character as the pending token. -/
theorem parse_node_round : ∀ (n : PNode), goodN n = true →
    ∀ (fuel : Nat) (st : TokState) (d : Char) (rest : List Char),
    nfN n ≤ fuel → (d = ')' ∨ d = ',' ∨ d = ';') →
    PosT st ((compose_node n).toList ++ d :: rest) →
    ∃ st1, parse_newick_node_streamF fuel st = .ok (n, st1) ∧
      st1.currentToken = some (String.mk [d]) ∧ st1.quoted = false ∧
      PosT st1 rest
  | .node lbl el tx oid [], hg, fuel, st, d, rest, hfuel, hd, hpos => by
    cases lbl with
    | none => simp [goodN] at hg
    | some w =>
      simp only [goodN, Bool.and_eq_true, decide_eq_true_eq] at hg
      obtain ⟨⟨⟨hw, hel⟩, htx⟩, hoid⟩ := hg
      subst hel; subst htx; subst hoid
      have hf3 : 3 ≤ fuel := by simpa [nfN] using hfuel
      obtain ⟨f, rfl⟩ : ∃ f, fuel = f + 1 := ⟨fuel - 1, by omega⟩
      have hwprop : ¬(w.toList = []) ∧ w.toList.all safeChar = true := by
        simpa [goodWordS, goodWordL] using hw
      obtain ⟨a, w', hwl⟩ : ∃ a w', w.toList = a :: w' := by
        cases hc : w.toList with
        | nil => exact absurd hc hwprop.1
        | cons a w' => exact ⟨a, w', rfl⟩
      have hall : (a :: w').all safeChar = true := by
        rw [← hwl]; exact hwprop.2
      rw [compose_leaf hw, hwl] at hpos
      simp only [List.cons_append] at hpos
      obtain ⟨heof, hcur, hstream⟩ := hpos
      obtain ⟨st1, hrun, htok, hq1, hpos1⟩ :=
        read_word_tok2 st a w' d rest heof hcur hstream hall
          (stop_char_facts hd).2.2.2.2
      have hmkw : String.mk (a :: w') = w := by
        rw [← hwl]; exact string_mk_toList w
      rw [stream_unfold, hrun, htok, hmkw]
      obtain ⟨f1, rfl⟩ : ∃ f1, f = f1 + 1 := ⟨f - 1, by omega⟩
      rw [loop_word_step f1 w newNode st1 hw rfl hq1]
      obtain ⟨heof1, hcur1, hstream1⟩ := hpos1
      obtain ⟨hdp, hdq, hdbr, hdws, _⟩ := stop_char_facts hd
      obtain ⟨st2, hrun2, htok2, hq2, hpos2⟩ :=
        read_punct_tok2 st1 d rest heof1 hcur1 hstream1 hdp hdq hdbr hdws
      rw [hrun2, htok2]
      obtain ⟨f2, rfl⟩ : ∃ f2, f1 = f2 + 1 := ⟨f1 - 1, by omega⟩
      rw [loop_stop f2 _ _ _ (stop_tok_fail hd)]
      exact ⟨st2, rfl, htok2, hq2, hpos2⟩
  | .node lbl el tx oid (c :: cs), hg, fuel, st, d, rest, hfuel, hd, hpos => by
    simp only [goodN, Bool.and_eq_true, decide_eq_true_eq] at hg
    obtain ⟨⟨⟨⟨hlbl, hel⟩, htx⟩, hoid⟩, hkids⟩ := hg
    subst hel; subst htx; subst hoid
    have hf : 3 + nfL (c :: cs) ≤ fuel := by simpa [nfN] using hfuel
    have hnf1 : 1 ≤ nfL (c :: cs) := by simp only [nfL]; omega
    obtain ⟨f, rfl⟩ : ∃ f, fuel = f + 1 := ⟨fuel - 1, by omega⟩
    obtain ⟨f1, rfl⟩ : ∃ f1, f = f1 + 1 := ⟨f - 1, by omega⟩
    obtain ⟨hdp, hdq, hdbr, hdws, _⟩ := stop_char_facts hd
    cases lbl with
    | none =>
      rw [compose_internal_none c cs] at hpos
      simp only [List.cons_append, List.append_assoc, List.singleton_append]
        at hpos
      obtain ⟨heof, hcur, hstream⟩ := hpos
      obtain ⟨st1, hrun, htok, hq1, hpos1⟩ :=
        read_punct_tok2 st '(' _ heof hcur hstream (by decide) (by decide)
          (by decide) (by decide)
      rw [stream_unfold, hrun, htok, (by decide : String.mk ['('] = "(")]
      obtain ⟨stc, hcrun, hctok, hcq, hcpos⟩ :=
        parse_children_round (c :: cs) hkids (List.cons_ne_nil c cs) f1
          (some "(") newNode st1 (d :: rest) (by omega) (by decide)
          (by decide) hpos1
      rw [loop_lparen_step f1 (some ")") newNode _ st1 stc hcrun,
        foldl_newNode (c :: cs)]
      obtain ⟨heof2, hcur2, hstream2⟩ := hcpos
      obtain ⟨st2, hrun2, htok2, hq2, hpos2⟩ :=
        read_punct_tok2 stc d rest heof2 hcur2 hstream2 hdp hdq hdbr hdws
      rw [hrun2, htok2]
      obtain ⟨f2, rfl⟩ : ∃ f2, f1 = f2 + 1 := ⟨f1 - 1, by omega⟩
      rw [loop_stop f2 _ _ _ (stop_tok_fail hd)]
      exact ⟨st2, rfl, htok2, hq2, hpos2⟩
    | some w =>
      have hw : goodWordS w = true := by simpa using hlbl
      rw [compose_internal_some hw c cs] at hpos
      simp only [List.cons_append, List.append_assoc] at hpos
      obtain ⟨heof, hcur, hstream⟩ := hpos
      obtain ⟨st1, hrun, htok, hq1, hpos1⟩ :=
        read_punct_tok2 st '(' _ heof hcur hstream (by decide) (by decide)
          (by decide) (by decide)
      rw [stream_unfold, hrun, htok, (by decide : String.mk ['('] = "(")]
      obtain ⟨stc, hcrun, hctok, hcq, hcpos⟩ :=
        parse_children_round (c :: cs) hkids (List.cons_ne_nil c cs) f1
          (some "(") newNode st1 (w.toList ++ d :: rest) (by omega)
          (by decide) (by decide) hpos1
      rw [loop_lparen_step f1 (some ")") newNode _ st1 stc hcrun,
        foldl_newNode (c :: cs)]
      have hwprop : ¬(w.toList = []) ∧ w.toList.all safeChar = true := by
        simpa [goodWordS, goodWordL] using hw
      obtain ⟨a, w', hwl⟩ : ∃ a w', w.toList = a :: w' := by
        cases hc : w.toList with
        | nil => exact absurd hc hwprop.1
        | cons a w' => exact ⟨a, w', rfl⟩
      have hall : (a :: w').all safeChar = true := by
        rw [← hwl]; exact hwprop.2
      rw [hwl] at hcpos
      simp only [List.cons_append] at hcpos
      obtain ⟨heof2, hcur2, hstream2⟩ := hcpos
      obtain ⟨st2, hrun2, htok2, hq2, hpos2⟩ :=
        read_word_tok2 stc a w' d rest heof2 hcur2 hstream2 hall
          (stop_char_facts hd).2.2.2.2
      have hmkw : String.mk (a :: w') = w := by
        rw [← hwl]; exact string_mk_toList w
      rw [hrun2, htok2, hmkw]
      obtain ⟨f2, rfl⟩ : ∃ f2, f1 = f2 + 1 := ⟨f1 - 1, by omega⟩
      rw [loop_word_step f2 w (.node none .absent none "" (c :: cs)) st2 hw
        rfl hq2]
      obtain ⟨heof3, hcur3, hstream3⟩ := hpos2
      obtain ⟨st3, hrun3, htok3, hq3, hpos3⟩ :=
        read_punct_tok2 st2 d rest heof3 hcur3 hstream3 hdp hdq hdbr hdws
      rw [hrun3, htok3]
      obtain ⟨f3, rfl⟩ : ∃ f3, f2 = f3 + 1 := ⟨f2 - 1, by omega⟩
      rw [loop_stop f3 _ _ _ (stop_tok_fail hd)]
      exact ⟨st3, rfl, htok3, hq3, hpos3⟩

/-- Round trip at the children-loop level: parsing the comma-joined
compositions of a good nonempty forest up to the matching close
parenthesis appends exactly those subtrees as children. -/
theorem parse_children_round : ∀ (l : List PNode), goodL l = true → l ≠ [] →
    ∀ (fuel : Nat) (tok : Option String) (node : PNode) (st : TokState)
      (rest : List Char),
    nfL l ≤ fuel → tokTruthy tok = true → tok ≠ some ")" →
    PosT st (composeBody l ++ ')' :: rest) →
    ∃ st1, parse_node_childrenF fuel tok node st =
        .ok (l.foldl PNode.addChild node, st1, some ")") ∧
      st1.currentToken = some ")" ∧ st1.quoted = false ∧ PosT st1 rest
  | [], _, hne, _, _, _, _, _, _, _, _, _ => absurd rfl hne
  | [c], hgl, _, fuel, tok, node, st, rest, hfuel, ht, hne, hpos => by
    have hgc : goodN c = true := by
      simp only [goodL, Bool.and_eq_true] at hgl
      exact hgl.1
    have hfn : 2 + nfN c ≤ fuel := by
      have h0 : nfL [c] = 1 + nfN c + 1 := by simp [nfL]
      omega
    obtain ⟨f, rfl⟩ : ∃ f, fuel = f + 1 := ⟨fuel - 1, by omega⟩
    obtain ⟨st1, hrun, htok, hq1, hpos1⟩ :=
      parse_node_round c hgc f st ')' rest (by omega) (Or.inl rfl)
        (by simpa [composeBody] using hpos)
    have htok' : st1.currentToken = some ")" := htok.trans (by decide)
    rw [children_step f tok node c st st1 ht hne hrun, htok']
    obtain ⟨f1, rfl⟩ : ∃ f1, f = f1 + 1 := ⟨f - 1, by omega⟩
    rw [children_stop f1 (node.addChild c) st1]
    exact ⟨st1, rfl, htok', hq1, hpos1⟩
  | c :: c2 :: cs, hgl, _, fuel, tok, node, st, rest, hfuel, ht, hne, hpos => by
    have hgc : goodN c = true := by
      simp only [goodL, Bool.and_eq_true] at hgl
      exact hgl.1
    have hgcs : goodL (c2 :: cs) = true := by
      simp only [goodL, Bool.and_eq_true] at hgl ⊢
      exact ⟨hgl.2.1, hgl.2.2⟩
    have hfuel' : 1 + nfN c + nfL (c2 :: cs) ≤ fuel := by
      have h0 : nfL (c :: c2 :: cs) = 1 + nfN c + nfL (c2 :: cs) := by
        simp [nfL]
      omega
    have hnf1 : 1 ≤ nfL (c2 :: cs) := by simp only [nfL]; omega
    obtain ⟨f, rfl⟩ : ∃ f, fuel = f + 1 := ⟨fuel - 1, by omega⟩
    have hpos' : PosT st ((compose_node c).toList ++
        ',' :: (composeBody (c2 :: cs) ++ ')' :: rest)) := by
      have hb : composeBody (c :: c2 :: cs) =
          (compose_node c).toList ++ ',' :: composeBody (c2 :: cs) := by
        simp [composeBody]
      rw [hb] at hpos
      simpa [List.append_assoc] using hpos
    obtain ⟨st1, hrun, htok, hq1, hpos1⟩ :=
      parse_node_round c hgc f st ',' _ (by omega) (Or.inr (Or.inl rfl)) hpos'
    have htok' : st1.currentToken = some "," := htok.trans (by decide)
    rw [children_step f tok node c st st1 ht hne hrun, htok']
    obtain ⟨st2, hrun2, htok2, hq2, hpos2⟩ :=
      parse_children_round (c2 :: cs) hgcs (List.cons_ne_nil c2 cs) f
        (some ",") (node.addChild c) st1 rest (by omega) (by decide)
        (by decide) hpos1
    rw [hrun2]
    exact ⟨st2, rfl, htok2, hq2, hpos2⟩

end

/-- The tree statement loop stops at a falsy token, a semicolon or a
colon. -/
theorem tree_loop_stop (g : Nat) (tok : Option String) (kids : List PNode)
    (st : TokState)
    (h : ¬(tokTruthy tok = true ∧ tok ≠ some ";" ∧ tok ≠ some ":")) :
    parse_tree_loopF (g + 1) tok kids st = .ok (tok, kids, st) := by
  simp only [parse_tree_loopF]
  rw [if_neg h]

/-- One step of the tree statement loop when the parsed sibling does not
stop at a close parenthesis. -/
theorem tree_loop_step_mid (f : Nat) (tok : Option String) (kids : List PNode)
    (nd : PNode) (st st1 : TokState) (hc : tokTruthy tok = true)
    (h1 : tok ≠ some ";") (h2 : tok ≠ some ":")
    (hs : parse_newick_node_streamF f st = .ok (nd, st1))
    (hntok : ¬(st1.currentToken = some ")")) :
    parse_tree_loopF (f + 1) tok kids st =
      parse_tree_loopF f st1.currentToken (kids ++ [nd]) st1 := by
  simp only [parse_tree_loopF]
  rw [if_pos ⟨hc, h1, h2⟩, hs]
  exact if_neg hntok

/-- One step of the tree statement loop when the parsed sibling stops at a
close parenthesis: the loop reads one lookahead token and either breaks
with it or continues. -/
theorem tree_loop_step_close (f : Nat) (tok : Option String)
    (kids : List PNode) (nd : PNode) (st st1 : TokState)
    (hc : tokTruthy tok = true) (h1 : tok ≠ some ";") (h2 : tok ≠ some ":")
    (hs : parse_newick_node_streamF f st = .ok (nd, st1))
    (htok : st1.currentToken = some ")") :
    parse_tree_loopF (f + 1) tok kids st =
      (if tokTruthy (read_next_token [] false st1).currentToken = true ∧
          strInPunct ((read_next_token [] false st1).currentToken.getD "") =
            false then
        .ok ((read_next_token [] false st1).currentToken, kids ++ [nd],
          read_next_token [] false st1)
      else
        parse_tree_loopF f (read_next_token [] false st1).currentToken
          (kids ++ [nd]) (read_next_token [] false st1)) := by
  simp only [parse_tree_loopF]
  rw [if_pos ⟨hc, h1, h2⟩, hs]
  exact if_pos htok

mutual

/-- The node-parser fuel bound of a good subtree is covered by four times
its composed length. -/
theorem nfN_le : ∀ (n : PNode), goodN n = true →
    nfN n ≤ 4 * (compose_node n).toList.length
  | .node lbl el tx oid [], hg => by
    cases lbl with
    | none => simp [goodN] at hg
    | some w =>
      simp only [goodN, Bool.and_eq_true, decide_eq_true_eq] at hg
      obtain ⟨⟨⟨hw, hel⟩, htx⟩, hoid⟩ := hg
      subst hel; subst htx; subst hoid
      rw [compose_leaf hw]
      have hne : ¬(w.toList = []) := by
        simp only [goodWordS, goodWordL, Bool.and_eq_true, Bool.not_eq_true',
          decide_eq_false_iff_not] at hw
        exact hw.1
      have hlen : 1 ≤ w.toList.length := by
        cases hc : w.toList with
        | nil => exact absurd hc hne
        | cons a w' => simp
      simp only [nfN]
      omega
  | .node lbl el tx oid (c :: cs), hg => by
    simp only [goodN, Bool.and_eq_true, decide_eq_true_eq] at hg
    obtain ⟨⟨⟨⟨hlbl, hel⟩, htx⟩, hoid⟩, hkids⟩ := hg
    subst hel; subst htx; subst hoid
    have hbody := nfL_le (c :: cs) hkids
    cases lbl with
    | none =>
      rw [compose_internal_none c cs]
      simp only [nfN, List.length_cons, List.length_append, List.length_singleton]
      omega
    | some w =>
      have hw : goodWordS w = true := by simpa using hlbl
      rw [compose_internal_some hw c cs]
      simp only [nfN, List.length_cons, List.length_append]
      omega

/-- The children-loop fuel bound of a good forest is covered by four times
its composed body length plus a constant. -/
theorem nfL_le : ∀ (l : List PNode), goodL l = true →
    nfL l ≤ 4 * (composeBody l).length + 5
  | [], _ => by simp [nfL, composeBody]
  | [c], hg => by
    have hgc : goodN c = true := by
      simp only [goodL, Bool.and_eq_true] at hg
      exact hg.1
    have hc := nfN_le c hgc
    simp only [nfL, composeBody]
    omega
  | c :: c2 :: cs, hg => by
    have hgc : goodN c = true := by
      simp only [goodL, Bool.and_eq_true] at hg
      exact hg.1
    have hgcs : goodL (c2 :: cs) = true := by
      simp only [goodL, Bool.and_eq_true] at hg ⊢
      exact ⟨hg.2.1, hg.2.2⟩
    have hc := nfN_le c hgc
    have hcs := nfL_le (c2 :: cs) hgcs
    have hb : composeBody (c :: c2 :: cs) =
        (compose_node c).toList ++ ',' :: composeBody (c2 :: cs) := by
      simp [composeBody]
    have h0 : nfL (c :: c2 :: cs) = 1 + nfN c + nfL (c2 :: cs) := by
      simp [nfL]
    rw [hb, h0]
    simp only [List.length_append, List.length_cons]
    omega

end

/-- Round trip at the tree statement loop: parsing the comma-joined
top-level siblings collects exactly those subtrees and leaves the loop at
the close-parenthesis lookahead step. -/
theorem tree_loop_round : ∀ (l : List PNode), goodL l = true → l ≠ [] →
    ∀ (fuel : Nat) (tok : Option String) (kids0 : List PNode) (st : TokState)
      (rest : List Char),
    nfL l ≤ fuel → tokTruthy tok = true → tok ≠ some ";" → tok ≠ some ":" →
    PosT st (composeBody l ++ ')' :: rest) →
    ∃ g st1, 1 ≤ g ∧ st1.currentToken = some ")" ∧ st1.quoted = false ∧
      PosT st1 rest ∧
      parse_tree_loopF fuel tok kids0 st =
        (if tokTruthy (read_next_token [] false st1).currentToken = true ∧
            strInPunct ((read_next_token [] false st1).currentToken.getD "") =
              false then
          .ok ((read_next_token [] false st1).currentToken, kids0 ++ l,
            read_next_token [] false st1)
        else
          parse_tree_loopF g (read_next_token [] false st1).currentToken
            (kids0 ++ l) (read_next_token [] false st1))
  | [], _, hne, _, _, _, _, _, _, _, _, _, _ => absurd rfl hne
  | [c], hgl, _, fuel, tok, kids0, st, rest, hfuel, ht, h1, h2, hpos => by
    have hgc : goodN c = true := by
      simp only [goodL, Bool.and_eq_true] at hgl
      exact hgl.1
    have hfn : 2 + nfN c ≤ fuel := by
      have h0 : nfL [c] = 1 + nfN c + 1 := by simp [nfL]
      omega
    obtain ⟨f, rfl⟩ : ∃ f, fuel = f + 1 := ⟨fuel - 1, by omega⟩
    obtain ⟨st1, hrun, htok, hq1, hpos1⟩ :=
      parse_node_round c hgc f st ')' rest (by omega) (Or.inl rfl)
        (by simpa [composeBody] using hpos)
    have htok' : st1.currentToken = some ")" := htok.trans (by decide)
    exact ⟨f, st1, by omega, htok', hq1, hpos1,
      tree_loop_step_close f tok kids0 c st st1 ht h1 h2 hrun htok'⟩
  | c :: c2 :: cs, hgl, _, fuel, tok, kids0, st, rest, hfuel, ht, h1, h2,
      hpos => by
    have hgc : goodN c = true := by
      simp only [goodL, Bool.and_eq_true] at hgl
      exact hgl.1
    have hgcs : goodL (c2 :: cs) = true := by
      simp only [goodL, Bool.and_eq_true] at hgl ⊢
      exact ⟨hgl.2.1, hgl.2.2⟩
    have hfuel' : 1 + nfN c + nfL (c2 :: cs) ≤ fuel := by
      have h0 : nfL (c :: c2 :: cs) = 1 + nfN c + nfL (c2 :: cs) := by
        simp [nfL]
      omega
    obtain ⟨f, rfl⟩ : ∃ f, fuel = f + 1 := ⟨fuel - 1, by omega⟩
    have hpos' : PosT st ((compose_node c).toList ++
        ',' :: (composeBody (c2 :: cs) ++ ')' :: rest)) := by
      have hb : composeBody (c :: c2 :: cs) =
          (compose_node c).toList ++ ',' :: composeBody (c2 :: cs) := by
        simp [composeBody]
      rw [hb] at hpos
      simpa [List.append_assoc] using hpos
    obtain ⟨st1, hrun, htok, hq1, hpos1⟩ :=
      parse_node_round c hgc f st ',' _ (by omega) (Or.inr (Or.inl rfl)) hpos'
    have htok' : st1.currentToken = some "," := htok.trans (by decide)
    obtain ⟨g, st2, hg1, htok2, hq2, hpos2, heq⟩ :=
      tree_loop_round (c2 :: cs) hgcs (List.cons_ne_nil c2 cs) f (some ",")
        (kids0 ++ [c]) st1 rest (by omega) (by decide) (by decide) (by decide)
        hpos1
    refine ⟨g, st2, hg1, htok2, hq2, hpos2, ?_⟩
    rw [tree_loop_step_mid f tok kids0 c st st1 ht h1 h2 hrun
      (by rw [htok']; decide), htok', heq]
    simp only [List.append_assoc, List.singleton_append]

/-- Evaluation of `parse_newick_tree_stream` given the first token and the
run of the statement loop: the finishing steps receive the loop's
results. -/
theorem tree_stream_eval (fuel : Nat) (taxa0 : Option (List String))
    (tr : List (String × String)) (st st1 : TokState) (tok1 : Option String)
    (res : Option String × List PNode × TokState)
    (hread : read_next_token [] false st = st1)
    (htok : st1.currentToken = tok1)
    (ht : tokTruthy tok1 = true)
    (hloop : parse_tree_loopF fuel tok1 [] st1 = .ok res) :
    parse_newick_tree_streamF fuel taxa0 tr st =
      .ok (some (parse_tree_finish tr (taxa0.getD []) res.1 res.2.1
        res.2.2).1,
        (parse_tree_finish tr (taxa0.getD []) res.1 res.2.1 res.2.2).2) := by
  simp only [parse_newick_tree_streamF]
  rw [hread, htok, if_neg (by rw [ht]; decide), hloop]

/-- The root-label step skips a punctuation or falsy token. -/
theorem root_label_none_eq (seed : PNode) (tok : Option String)
    (st : TokState)
    (h : ¬(tokTruthy tok = true ∧ strInPunct (tok.getD "") = false)) :
    tree_root_label_step seed tok st = (seed, st, tok) := by
  simp only [tree_root_label_step]
  rw [if_neg h]

/-- The root-label step fires on a safe unquoted word: it labels the seed
and reads the next token. -/
theorem root_label_some_eq (seed : PNode) (w : String) (st : TokState)
    (hw : goodWordS w = true) (hq : st.quoted = false) :
    tree_root_label_step seed (some w) st =
      (seed.setLabel (some w), read_next_token [] false st,
        (read_next_token [] false st).currentToken) := by
  simp only [tree_root_label_step, Option.getD_some]
  rw [if_pos ⟨good_truthy hw, strInPunct_good hw⟩, hq,
    parse_taxon_label_good hw]

/-- The root-length step skips any token other than a colon. -/
theorem root_length_skip_eq (seed : PNode) (tok : Option String)
    (st : TokState) (h : ¬(tokTruthy tok = true ∧ tok = some ":")) :
    tree_root_length_step seed tok st = (seed, st) := by
  simp only [tree_root_length_step]
  rw [if_neg h]

/-- The finishing steps of `parse_newick_tree_stream` when the loop stopped
at the terminating semicolon: no root label, no root length, resolve the
leaves of the assembled seed. -/
theorem finish_eval_none (kids : List PNode) (st : TokState) :
    parse_tree_finish [] [] (some ";") kids st =
      ({ seed := (resolveLeavesN [] [] (.node none .absent none "" kids)).1,
         taxa := (resolveLeavesN [] [] (.node none .absent none "" kids)).2,
         label := none }, st) := by
  simp only [parse_tree_finish]
  rw [foldl_newNode]
  rw [root_label_none_eq _ _ _ (by decide)]
  rw [root_length_skip_eq _ _ _ (by decide :
    ¬(tokTruthy (some ";") = true ∧ (some ";" : Option String) = some ":"))]

/-- The finishing steps of `parse_newick_tree_stream` when the loop broke
with a safe root label, after which the next token is the terminating
semicolon: set the seed label, read the semicolon, no root length. -/
theorem finish_eval_some (w : String) (hw : goodWordS w = true)
    (kids : List PNode) (st st4 : TokState) (hq : st.quoted = false)
    (hread : read_next_token [] false st = st4)
    (htok4 : st4.currentToken = some ";") :
    parse_tree_finish [] [] (some w) kids st =
      ({ seed := (resolveLeavesN [] []
           (.node (some w) .absent none "" kids)).1,
         taxa := (resolveLeavesN [] []
           (.node (some w) .absent none "" kids)).2,
         label := none }, st4) := by
  simp only [parse_tree_finish]
  rw [foldl_newNode]
  rw [root_label_some_eq _ w _ hw hq]
  rw [hread, htok4]
  rw [root_length_skip_eq _ _ _ (by decide :
    ¬(tokTruthy (some ";") = true ∧ (some ";" : Option String) = some ":"))]
  simp [PNode.setLabel]

/-- Parsing the composed form of a good tree whose seed has at least one
child, terminated by a semicolon: the statement parses back to exactly
that tree, up to the leaf-taxon resolution the parser performs at the
end. -/
theorem parse_compose_good (n : PNode) (hg : goodN n = true)
    (hk : n.children ≠ []) :
    ∃ st1, parse_newick_string (compose_node n ++ ";") =
      .ok (some { seed := (resolveLeavesN [] [] n).1,
                  taxa := (resolveLeavesN [] [] n).2, label := none },
        st1) := by
  cases n with
  | node lbl el tx oid kids =>
    cases kids with
    | nil => exact absurd rfl hk
    | cons c cs =>
      simp only [goodN, Bool.and_eq_true, decide_eq_true_eq] at hg
      obtain ⟨⟨⟨⟨hlbl, hel⟩, htx⟩, hoid⟩, hkids⟩ := hg
      subst hel; subst htx; subst hoid
      have hbody := nfL_le (c :: cs) hkids
      cases lbl with
      | none =>
        have hsemi : (";" : String).toList = [';'] := rfl
        have hsl : (compose_node (.node none .absent none "" (c :: cs)) ++
            ";").toList =
            '(' :: (composeBody (c :: cs) ++ ')' :: ';' :: []) := by
          rw [toList_append, compose_internal_none c cs, hsemi]
          simp
        obtain ⟨st1, hrun1, htok1, hq1, hpos1⟩ :=
          read_punct_tok_mk hsl (by decide) (by decide) (by decide) (by decide)
        have htok1' : st1.currentToken = some "(" := htok1.trans (by decide)
        have hF : fuelFor (mkTokState
            (compose_node (.node none .absent none "" (c :: cs)) ++ ";")) =
            4 * ((compose_node (.node none .absent none "" (c :: cs)) ++
              ";").toList.length) + 16 := rfl
        have hlen : (compose_node (.node none .absent none "" (c :: cs)) ++
            ";").toList.length = (composeBody (c :: cs)).length + 3 := by
          rw [hsl]; simp
        have hFb : nfL (c :: cs) ≤ fuelFor (mkTokState
            (compose_node (.node none .absent none "" (c :: cs)) ++ ";")) := by
          rw [hF, hlen]; omega
        obtain ⟨g, st2, hg1, htok2, hq2, hpos2, heq⟩ :=
          tree_loop_round (c :: cs) hkids (List.cons_ne_nil c cs)
            (fuelFor (mkTokState
              (compose_node (.node none .absent none "" (c :: cs)) ++ ";")))
            (some "(") [] st1 (';' :: []) hFb
            (by decide) (by decide) (by decide) hpos1
        obtain ⟨heof2, hcur2, hstream2⟩ := hpos2
        obtain ⟨st3, hrun3, htok3, hq3, hpos3⟩ :=
          read_punct_tok2 st2 ';' [] heof2 hcur2 hstream2 (by decide)
            (by decide) (by decide) (by decide)
        have htok3' : st3.currentToken = some ";" := htok3.trans (by decide)
        rw [hrun3, htok3'] at heq
        rw [if_neg (by decide : ¬(tokTruthy (some ";") = true ∧
          strInPunct ((some ";" : Option String).getD "") = false))] at heq
        obtain ⟨g', rfl⟩ : ∃ g', g = g' + 1 := ⟨g - 1, by omega⟩
        rw [tree_loop_stop g' (some ";") ([] ++ (c :: cs)) st3
          (by decide)] at heq
        refine ⟨st3, ?_⟩
        simp only [parse_newick_string]
        rw [tree_stream_eval (fuelFor (mkTokState
            (compose_node (.node none .absent none "" (c :: cs)) ++ ";")))
          none [] (mkTokState
            (compose_node (.node none .absent none "" (c :: cs)) ++ ";"))
          st1 (some "(")
          (some ";", [] ++ (c :: cs), st3) hrun1 htok1' (by decide) heq]
        simp only [List.nil_append, Option.getD_none]
        rw [finish_eval_none (c :: cs) st3]
      | some w =>
        have hw : goodWordS w = true := by simpa using hlbl
        have hsemi : (";" : String).toList = [';'] := rfl
        have hsl : (compose_node (.node (some w) .absent none ""
            (c :: cs)) ++ ";").toList =
            '(' :: (composeBody (c :: cs) ++ ')' :: (w.toList ++ [';'])) := by
          rw [toList_append, compose_internal_some hw c cs, hsemi]
          simp
        obtain ⟨st1, hrun1, htok1, hq1, hpos1⟩ :=
          read_punct_tok_mk hsl (by decide) (by decide) (by decide) (by decide)
        have htok1' : st1.currentToken = some "(" := htok1.trans (by decide)
        have hF : fuelFor (mkTokState
            (compose_node (.node (some w) .absent none "" (c :: cs)) ++
              ";")) =
            4 * ((compose_node (.node (some w) .absent none "" (c :: cs)) ++
              ";").toList.length) + 16 := rfl
        have hlen : (composeBody (c :: cs)).length ≤
            (compose_node (.node (some w) .absent none "" (c :: cs)) ++
              ";").toList.length := by
          rw [hsl]; simp; omega
        have hFb : nfL (c :: cs) ≤ fuelFor (mkTokState
            (compose_node (.node (some w) .absent none "" (c :: cs)) ++
              ";")) := by
          rw [hF]; omega
        obtain ⟨g, st2, hg1, htok2, hq2, hpos2, heq⟩ :=
          tree_loop_round (c :: cs) hkids (List.cons_ne_nil c cs)
            (fuelFor (mkTokState
              (compose_node (.node (some w) .absent none "" (c :: cs)) ++
                ";")))
            (some "(") [] st1 (w.toList ++ [';']) hFb
            (by decide) (by decide) (by decide) hpos1
        have hwprop : ¬(w.toList = []) ∧ w.toList.all safeChar = true := by
          simpa [goodWordS, goodWordL] using hw
        obtain ⟨a, w', hwl⟩ : ∃ a w', w.toList = a :: w' := by
          cases hc : w.toList with
          | nil => exact absurd hc hwprop.1
          | cons a w' => exact ⟨a, w', rfl⟩
        have hall : (a :: w').all safeChar = true := by
          rw [← hwl]; exact hwprop.2
        rw [hwl] at hpos2
        simp only [List.cons_append] at hpos2
        obtain ⟨heof2, hcur2, hstream2⟩ := hpos2
        obtain ⟨st3, hrun3, htok3, hq3, hpos3⟩ :=
          read_word_tok2 st2 a w' ';' [] heof2 hcur2 hstream2 hall (by decide)
        have hmkw : String.mk (a :: w') = w := by
          rw [← hwl]; exact string_mk_toList w
        rw [hmkw] at htok3
        rw [hrun3, htok3] at heq
        rw [if_pos ⟨good_truthy hw, strInPunct_good hw⟩] at heq
        obtain ⟨heof3, hcur3, hstream3⟩ := hpos3
        obtain ⟨st4, hrun4, htok4, hq4, hpos4⟩ :=
          read_punct_tok2 st3 ';' [] heof3 hcur3 hstream3 (by decide)
            (by decide) (by decide) (by decide)
        have htok4' : st4.currentToken = some ";" := htok4.trans (by decide)
        refine ⟨st4, ?_⟩
        simp only [parse_newick_string]
        rw [tree_stream_eval (fuelFor (mkTokState
            (compose_node (.node (some w) .absent none "" (c :: cs)) ++
              ";")))
          none [] (mkTokState
            (compose_node (.node (some w) .absent none "" (c :: cs)) ++ ";"))
          st1 (some "(")
          (some w, [] ++ (c :: cs), st3) hrun1 htok1' (by decide) heq]
        simp only [List.nil_append, Option.getD_none]
        rw [finish_eval_some w hw (c :: cs) st3 st4 hq3 hrun4 htok4']

theorem str_ext {s t : String} (h : s.toList = t.toList) : s = t := by
  cases s
  cases t
  exact congrArg String.mk h

/-- Leaf resolution over a sibling list, head exposed. -/
theorem resolveLeavesL_cons (tr : List (String × String))
    (taxa : List String) (x : PNode) (xs : List PNode) :
    (resolveLeavesL tr taxa (x :: xs)).1 =
      (resolveLeavesN tr taxa x).1 ::
        (resolveLeavesL tr (resolveLeavesN tr taxa x).2 xs).1 := by
  simp [resolveLeavesL]

/-- Resolution of a good leaf against an empty translate dictionary: the
taxon becomes the leaf label itself. -/
theorem resolveLeavesN_leaf_good {w : String} (hw : goodWordS w = true)
    (taxa : List String) :
    resolveLeavesN [] taxa (.node (some w) .absent none "" []) =
      (.node (some w) .absent (some w) "" [], getTaxon taxa w) := by
  simp only [resolveLeavesN]
  rw [if_pos (good_truthy hw)]
  simp

/-- Resolution of an internal node keeps its shape and resolves the
children. -/
theorem resolveLeavesN_internal (tr : List (String × String))
    (taxa : List String) (lbl : Option String) (el : EdgeLen)
    (tx : Option String) (oid : String) (x : PNode) (xs : List PNode) :
    (resolveLeavesN tr taxa (.node lbl el tx oid (x :: xs))).1 =
      .node lbl el tx oid (resolveLeavesL tr taxa (x :: xs)).1 := by
  simp [resolveLeavesN]

mutual

/-- Leaf resolution does not change what a good tree composes to: the
resolved leaves carry their own label as taxon, which the writer renders
identically. -/
theorem compose_resolve_node : ∀ (m : PNode), goodN m = true →
    ∀ taxa, compose_node ((resolveLeavesN [] taxa m).1) = compose_node m
  | .node lbl el tx oid [], hg, taxa => by
    cases lbl with
    | none => simp [goodN] at hg
    | some w =>
      simp only [goodN, Bool.and_eq_true, decide_eq_true_eq] at hg
      obtain ⟨⟨⟨hw, hel⟩, htx⟩, hoid⟩ := hg
      subst hel; subst htx; subst hoid
      have h1 : (resolveLeavesN [] taxa
          (.node (some w) .absent none "" [])).1 =
          .node (some w) .absent (some w) "" [] := by
        rw [resolveLeavesN_leaf_good hw taxa]
      rw [h1, compose_leaf hw]
      simp [compose_node, choose_display_tag, PNode.taxon,
        nw_compose_taxlabel_good hw, elenSuffix]
  | .node lbl el tx oid (c :: cs), hg, taxa => by
    simp only [goodN, Bool.and_eq_true, decide_eq_true_eq] at hg
    obtain ⟨⟨⟨⟨hlbl, hel⟩, htx⟩, hoid⟩, hkids⟩ := hg
    subst hel; subst htx; subst hoid
    rw [resolveLeavesN_internal [] taxa lbl .absent none "" c cs]
    apply str_ext
    cases lbl with
    | none =>
      rw [resolveLeavesL_cons]
      rw [compose_internal_none, compose_internal_none]
      rw [← resolveLeavesL_cons]
      rw [composeBody_resolve (c :: cs) hkids taxa]
    | some w =>
      have hw : goodWordS w = true := by simpa using hlbl
      rw [resolveLeavesL_cons]
      rw [compose_internal_some hw, compose_internal_some hw]
      rw [← resolveLeavesL_cons]
      rw [composeBody_resolve (c :: cs) hkids taxa]

/-- Leaf resolution does not change the joined composed body of a good
forest. -/
theorem composeBody_resolve : ∀ (l : List PNode), goodL l = true →
    ∀ taxa, composeBody ((resolveLeavesL [] taxa l).1) = composeBody l
  | [], _, taxa => by simp [resolveLeavesL, composeBody]
  | [c], hg, taxa => by
    have hgc : goodN c = true := by
      simp only [goodL, Bool.and_eq_true] at hg
      exact hg.1
    rw [resolveLeavesL_cons]
    have h0 : (resolveLeavesL [] (resolveLeavesN [] taxa c).2
        ([] : List PNode)).1 = [] := by
      simp [resolveLeavesL]
    rw [h0]
    simp only [composeBody]
    rw [compose_resolve_node c hgc taxa]
  | c :: c2 :: cs, hg, taxa => by
    have hgc : goodN c = true := by
      simp only [goodL, Bool.and_eq_true] at hg
      exact hg.1
    have hgcs : goodL (c2 :: cs) = true := by
      simp only [goodL, Bool.and_eq_true] at hg ⊢
      exact ⟨hg.2.1, hg.2.2⟩
    rw [resolveLeavesL_cons, resolveLeavesL_cons]
    simp only [composeBody]
    rw [← resolveLeavesL_cons]
    rw [compose_resolve_node c hgc taxa,
      composeBody_resolve (c2 :: cs) hgcs (resolveLeavesN [] taxa c).2]

end

/-- A concrete good pre-resolution tree for the statement (A,(B,C));. -/
def c1n : PNode :=
  .node none .absent none ""
    [.node (some "A") .absent none "" [],
     .node none .absent none ""
       [.node (some "B") .absent none "" [],
        .node (some "C") .absent none "" []]]

/-- The tokenizer state left after parsing the statement (A,(B,C));. -/
def c1st : TokState :=
  { stream := [], cur := .eochar, eof := true, prev := some ')', line := 1,
    col := 11, currentToken := some ";", quoted := false }

/-- The tree parsed from the statement (A,(B,C));. -/
def c1t : PTree :=
  { seed := (resolveLeavesN [] [] c1n).1, taxa := (resolveLeavesN [] [] c1n).2,
    label := none }

/-- The leaf taxon labels of a successful parse. -/
def taxaOfResult : Except PyErr (Option PTree × TokState) → Option (List String)
  | .ok (some t, _) => some t.taxa
  | _ => none

/-- The seed node of a successful parse. -/
def seedOfResult : Except PyErr (Option PTree × TokState) → Option PNode
  | .ok (some t, _) => some t.seed
  | _ => none

/-- The quoted statement with an underscore in a label. -/
def c1s0 : String :=
  String.mk ['(', squote, 'A', '_', 'B', squote, ',', 'C', ')', ';']

/-- C1 counterexample: the quoted statement with leaf labels A_B and C
parses successfully (underscore preserved under quoting), but
re-serializing its seed with the default writer and parsing the result
changes the leaf taxon set: the writer emits A_B unquoted (underscore is
neither whitespace nor punctuation) and the re-parse maps the unquoted
underscore to a space, yielding taxa A B and C. -/
theorem c1_counterexample :
    taxaOfResult (parse_newick_string c1s0) = some ["A_B", "C"] ∧
    (match seedOfResult (parse_newick_string c1s0) with
     | some sd => taxaOfResult (parse_newick_string (compose_node sd ++ ";"))
     | none => none) = some ["A B", "C"] ∧
    (["A_B", "C"] : List String) ≠ ["A B", "C"] :=
  ⟨rfl, rfl, by decide⟩

/-- C1 (corrected): round trip on the safe class.  For a successfully
parsed tree statement whose tree comes from a good pre-resolution tree —
every label nonempty and free of whitespace, punctuation and underscores,
all edge lengths absent, and at least one top-level child — re-serializing
the tree with the default-configured writer (`compose_node` on the seed)
and parsing the statement back yields a tree with an identical seed: same
topology, same labels, same taxa, same (absent) edge lengths.  Outside
this class the round trip can change the tree, see the counterexample. -/
theorem c1_round_trip (s : String) (t : PTree) (st0 : TokState) (n : PNode)
    (_hparse : parse_newick_string s = .ok (some t, st0))
    (hn : goodN n = true) (hk : n.children ≠ [])
    (hseed : t.seed = (resolveLeavesN [] [] n).1) :
    ∃ t2 st1, parse_newick_string (compose_node t.seed ++ ";") =
      .ok (some t2, st1) ∧ t2.seed = t.seed := by
  obtain ⟨st1, hp⟩ := parse_compose_good n hn hk
  refine ⟨{
    seed := (resolveLeavesN [] [] n).1, taxa := (resolveLeavesN [] [] n).2, label := none }, st1, ?_, ?_⟩
  · rw [hseed, compose_resolve_node n hn []]
    exact hp
  · exact hseed.symm

/-- Witness for `c1_round_trip` at the concrete statement (A,(B,C));. -/
theorem c1_round_trip_witness :
    parse_newick_string "(A,(B,C));" = .ok (some c1t, c1st) ∧
    goodN c1n = true ∧
    (∃ t2 st1, parse_newick_string (compose_node c1t.seed ++ ";") =
      .ok (some t2, st1) ∧ t2.seed = c1t.seed) :=
  ⟨rfl, rfl, c1_round_trip "(A,(B,C));" c1t c1st c1n rfl rfl
    (List.cons_ne_nil _ _) rfl⟩

/-- C5 counterexample: the pair A,T is a recognized IUPAC 2-of-4 combination
of A/C/G/T (with code W), yet `map_to_iupac_ambiguity_code` raises on the
group AT instead of returning that code (its lookup tests C where it should
test A, so the A/T combination is missing from it). -/
theorem c5_counterexample :
    (comboSet ['A', 'T'], 'W') ∈ iupacCombos ∧
    map_to_iupac_ambiguity_code ['A', 'T'] = .error (unrecognizedMsg ['A', 'T']) := by
  exact ⟨by decide, by rfl⟩

/-- C5 (amended): a multi-character ambiguity group resolves through the
code's own fixed lookup on which of A, C, G, T-or-U occur after
upper-casing (`codeOfPresent`: all four give N; the 3-of-4 combinations give
V/H/D/B; the pairs AC, AG, C+T/U, CG, G+T/U give M/R/W/S/K; in particular
C+T/U gives W, not Y, and the pair A+T/U is not recognized); any other
multi-character group raises an error whose message carries the upper-cased
group content; a single-character group is returned verbatim without
validation. -/
theorem c5_iupac_resolution :
    (∀ g : List Char, 2 ≤ g.length →
      map_to_iupac_ambiguity_code g =
        match codeOfPresent (cntU g 'A') (cntU g 'C') (cntU g 'G')
            (cntU g 'T' || cntU g 'U') with
        | some c => .ok c
        | none => .error (unrecognizedMsg (g.map Char.toUpper))) ∧
    (∀ c : Char, map_to_iupac_ambiguity_code [c] = .ok c) :=
  ⟨map_to_iupac_present, fun _ => rfl⟩

/-- Witness for `c5_iupac_resolution` at the concrete groups acgt and Z. -/
theorem c5_iupac_resolution_witness :
    map_to_iupac_ambiguity_code ['a', 'c', 'g', 't'] = .ok 'N' ∧
    map_to_iupac_ambiguity_code ['Z'] = .ok 'Z' := by
  refine ⟨?_, c5_iupac_resolution.2 'Z'⟩
  rw [c5_iupac_resolution.1 ['a', 'c', 'g', 't'] (by decide)]
  rfl

/-- C6: on multi-character ambiguity groups that the code's table does
resolve, resolution is deterministic and order-independent: two groups that
are permutations of each other resolve to the same single IUPAC code. -/
theorem c6_order_independent (s t : List Char) (hperm : s.Perm t)
    (h2 : 2 ≤ s.length)
    (hok : isOkE (map_to_iupac_ambiguity_code s) = true) :
    map_to_iupac_ambiguity_code s = map_to_iupac_ambiguity_code t := by
  have h2t : 2 ≤ t.length := by rw [← hperm.length_eq]; exact h2
  have hcnt : ∀ c : Char, cntU s c = cntU t c := fun c => by
    unfold cntU; rw [List.Perm.count_eq (hperm.map Char.toUpper)]
  rw [map_to_iupac_present s h2] at hok ⊢
  rw [map_to_iupac_present t h2t]
  rw [hcnt 'A', hcnt 'C', hcnt 'G', hcnt 'T', hcnt 'U'] at hok ⊢
  cases hcp : codeOfPresent (cntU t 'A') (cntU t 'C') (cntU t 'G')
      (cntU t 'T' || cntU t 'U')
  · rw [hcp] at hok; exact absurd hok (by simp [isOkE])
  · rfl

/-- Witness for `c6_order_independent`: the groups CA and AC resolve to the
same code, namely M. -/
theorem c6_order_independent_witness :
    map_to_iupac_ambiguity_code ['C', 'A'] = map_to_iupac_ambiguity_code ['A', 'C'] ∧
    map_to_iupac_ambiguity_code ['A', 'C'] = .ok 'M' :=
  ⟨c6_order_independent ['C', 'A'] ['A', 'C'] (by decide) (by decide) (by rfl), rfl⟩

end DendroNexus
